import Mathlib

/-!
# Verification of the text-to-video generation orchestration subsystem

This development gives a shallow embedding of the generation orchestration
code of the repository (backend/app/services/generator.py, storage.py,
local_pipelines.py, models.py) and proves the testable properties stated in
the specification against it.

Modelling conventions:
* Python `int` is modelled as `Int` (or `Nat` where the source value is
  provably non-negative), Python floats appearing in the numeric pipeline as
  `ℚ` (the float operations used — add, subtract, multiply by dyadic
  constants, divide by two, compare — are exact on the values involved).
* numpy arrays are modelled as a shape (list of dimension sizes) together
  with the row-major flattened data and a dtype tag.
* File-system and network effects are modelled as explicit oracles passed in;
  per the specification, on-disk persistence is an external collaborator
  treated as a simple key-value store.
-/

namespace TextToVideo

/-! ## Small Python-arithmetic helpers -/

/-- Python 3 `round` on a real value: round half to even (banker's rounding). -/
def roundHalfEven (q : ℚ) : ℤ :=
  let f : ℤ := ⌊q⌋
  let r : ℚ := q - f
  if r < 1/2 then f
  else if 1/2 < r then f + 1
  else if 2 ∣ f then f else f + 1

/-- `arr.min()` on the flattened data of a (nonempty) numpy array. -/
def rmin : List ℚ → ℚ
  | [] => 0
  | x :: xs => xs.foldl min x

/-- `arr.max()` on the flattened data of a (nonempty) numpy array. -/
def rmax : List ℚ → ℚ
  | [] => 0
  | x :: xs => xs.foldl max x

/-! ## JobManager request validation and clamping

From `VideoGenerator.generate_video` (generator.py lines 52–113):

```
width = (max(128, min(width, 1920)) // 8) * 8
height = (max(128, min(height, 1080)) // 8) * 8
num_frames = max(1, min(num_frames, 120))
fps = max(1, min(fps, 60))
```
-/

/-- `(max(128, min(v, hi)) // 8) * 8` — clamp then round down to a multiple
of 8. The intermediate is at least 128, so Python floor division agrees with
Lean's `Int` division. -/
def clampDim (v : Int) (hi : Int) : Int :=
  (max 128 (min v hi)) / 8 * 8

/-- `max(1, min(v, hi))`. -/
def clampRange (v : Int) (hi : Int) : Int :=
  max 1 (min v hi)

/-- The Python truthiness test `not prompt or not prompt.strip()` on a string:
the prompt is rejected iff it is empty or strips to the empty string, i.e.
iff every character is whitespace. -/
def emptyPrompt (prompt : String) : Bool :=
  prompt == "" || prompt.data.all Char.isWhitespace

/-- Result dictionary returned by `generate_video`. -/
structure SubmitResult where
  job_id : String
  status : String
  video_id : Option String
  deriving Repr, DecidableEq

/-- One entry of the in-memory job table `generation_status`.  Fields are
optional because `_update_generation_status` merges only the keyword
arguments passed at each call site. -/
structure JobState where
  status : Option String := none
  progress : Option ℕ := none
  message : Option String := none
  error : Option String := none
  video_id : Option String := none
  elapsedSet : Bool := false
  deriving Repr, DecidableEq

/-- Everything observable about one `generate_video` call: the returned
dictionary, the job-table entry it wrote, whether a video record was created
and whether a worker thread was started. -/
structure SubmitOutcome where
  result : SubmitResult
  job : JobState
  videoCreated : Bool
  workerSpawned : Bool
  deriving Repr, DecidableEq

/-- Parameters of a generation request after clamping. -/
structure ClampedParams where
  num_frames : Int
  fps : Int
  width : Int
  height : Int
  deriving Repr, DecidableEq

/-- The clamping block of `generate_video` (generator.py lines 57–60). -/
def clampParams (num_frames fps width height : Int) : ClampedParams :=
  { width := clampDim width 1920
    height := clampDim height 1080
    num_frames := clampRange num_frames 120
    fps := clampRange fps 60 }

/-- `VideoGenerator.generate_video` (generator.py lines 36–113) up to the
point where the worker thread is dispatched.  `jobId` and `videoId` stand for
the generated UUIDs; `storageOk` is the outcome of
`video_storage.create_video_entry` (`false` models the `None` return on a
storage error). -/
def generateVideo (prompt : String) (num_frames fps width height : Int)
    (storageOk : Bool) (jobId videoId : String) : SubmitOutcome :=
  if emptyPrompt prompt then
    { result := { job_id := jobId, status := "failed", video_id := none }
      job := { status := some "failed", error := some "Empty prompt" }
      videoCreated := false
      workerSpawned := false }
  else
    -- params are clamped before the record is created
    let _p := clampParams num_frames fps width height
    if storageOk = false then
      { result := { job_id := jobId, status := "failed", video_id := none }
        job := { status := some "failed", error := some "storage init failed" }
        videoCreated := false
        workerSpawned := false }
    else
      { result := { job_id := jobId, status := "pending", video_id := some videoId }
        job := { status := some "pending", progress := some 0,
                 video_id := some videoId, message := some "Queued for processing" }
        videoCreated := true
        workerSpawned := true }

/-! ## Claim C1 -/

/-- **C1.** A request whose prompt is empty or whitespace-only produces a job
in terminal `failed` state: the returned dictionary has status `"failed"` and
carries no `video_id`, the job-table entry has status `failed` and no
`video_id`, no video record is created and no worker thread is spawned. -/
theorem submit_empty_prompt_fails (prompt : String)
    (num_frames fps width height : Int) (storageOk : Bool) (jobId videoId : String)
    (h : emptyPrompt prompt = true) :
    let o := generateVideo prompt num_frames fps width height storageOk jobId videoId
    o.result.status = "failed" ∧ o.result.video_id = none ∧
    o.job.status = some "failed" ∧ o.job.video_id = none ∧
    o.videoCreated = false ∧ o.workerSpawned = false := by
  simp [generateVideo, h]

/-- Concrete instance of `submit_empty_prompt_fails` on the whitespace-only
prompt `"   "`. -/
theorem submit_empty_prompt_fails_witness :
    emptyPrompt "   " = true ∧
    (let o := generateVideo "   " 24 8 512 512 true "job-1" "vid-1"
     o.result.status = "failed" ∧ o.result.video_id = none ∧
     o.job.status = some "failed" ∧ o.job.video_id = none ∧
     o.videoCreated = false ∧ o.workerSpawned = false) :=
  ⟨by decide, submit_empty_prompt_fails "   " 24 8 512 512 true "job-1" "vid-1" (by decide)⟩

/-! ## Claim C2 -/

/-- **C2.** Clamping: for every input, the clamped width is a multiple of 8
within `[128, 1920]` and the clamped height a multiple of 8 within
`[128, 1080]`; each is obtained by first clamping into the range and then
rounding down to the nearest multiple of 8 without leaving the range (the
rounded value is at most the clamped value and less than 8 below it).  The
clamped frame count lies in `[1, 120]` and the clamped fps in `[1, 60]`. -/
theorem clamp_params_ranges (num_frames fps width height : Int) :
    (128 ≤ (clampParams num_frames fps width height).width ∧
      (clampParams num_frames fps width height).width ≤ 1920 ∧
      8 ∣ (clampParams num_frames fps width height).width ∧
      (clampParams num_frames fps width height).width ≤ max 128 (min width 1920) ∧
      max 128 (min width 1920) < (clampParams num_frames fps width height).width + 8) ∧
    (128 ≤ (clampParams num_frames fps width height).height ∧
      (clampParams num_frames fps width height).height ≤ 1080 ∧
      8 ∣ (clampParams num_frames fps width height).height ∧
      (clampParams num_frames fps width height).height ≤ max 128 (min height 1080) ∧
      max 128 (min height 1080) < (clampParams num_frames fps width height).height + 8) ∧
    (1 ≤ (clampParams num_frames fps width height).num_frames ∧
      (clampParams num_frames fps width height).num_frames ≤ 120) ∧
    (1 ≤ (clampParams num_frames fps width height).fps ∧
      (clampParams num_frames fps width height).fps ≤ 60) := by
  simp only [clampParams, clampDim, clampRange]
  refine ⟨⟨?_, ?_, ?_, ?_, ?_⟩, ⟨?_, ?_, ?_, ?_, ?_⟩, ⟨?_, ?_⟩, ⟨?_, ?_⟩⟩ <;> omega

/-! ## FrameNormalizer: `_ensure_pil_image` (local_pipelines.py lines 125–234)

numpy arrays are modelled by their shape, their row-major flattened data and
a dtype tag.  Only the dtype distinctions the function makes are modelled:
`uint8`, floating point (`float16/32/64`), and any other integer dtype. -/

/-- The dtype classes `_ensure_pil_image` distinguishes. -/
inductive DType where
  | u8
  | f
  | iOther
  deriving Repr, DecidableEq

def DType.name : DType → String
  | .u8 => "uint8"
  | .f => "float"
  | .iOther => "int"

/-- A numpy array: shape, row-major flattened data, dtype. -/
structure NDArr where
  shape : List ℕ
  data : List ℚ
  dtype : DType
  deriving Repr, DecidableEq

/-- `arr.ndim`. -/
def NDArr.ndim (a : NDArr) : ℕ := a.shape.length

/-- Well-formedness: the flattened data has exactly `prod(shape)` entries. -/
def NDArr.wf (a : NDArr) : Prop := a.data.length = a.shape.prod

instance (a : NDArr) : Decidable a.wf := by unfold NDArr.wf; infer_instance

/-- What a numpy array's dtype guarantees about its values: `uint8` data are
integers in `[0, 255]`; other integer dtypes hold integers; float data are
unconstrained. -/
def NDArr.dtypeOk (a : NDArr) : Prop :=
  (a.dtype = .u8 → ∀ v ∈ a.data, v.den = 1 ∧ 0 ≤ v ∧ v ≤ 255) ∧
  (a.dtype = .iOther → ∀ v ∈ a.data, v.den = 1)

instance (a : NDArr) : Decidable a.dtypeOk := by
  unfold NDArr.dtypeOk; infer_instance

/-- `np.squeeze(arr)`: remove all singleton axes.  Row-major flattened data
is unchanged. -/
def squeezeAll (a : NDArr) : NDArr :=
  { a with shape := a.shape.filter (fun d => d != 1) }

/-- `np.stack([arr, arr, arr], axis=-1)` on a rank-2 array: replicate a
grayscale image to three channels (line 155). -/
def stack3 (a : NDArr) : NDArr :=
  { shape := a.shape ++ [3], data := a.data.flatMap (fun v => [v, v, v]), dtype := a.dtype }

/-- `np.concatenate([arr, arr, arr], axis=2)` on a `(H, W, 1)` array
(line 170): replicate the single channel to three.  Only invoked on rank-3
arrays with a single channel. -/
def concat3 (a : NDArr) : NDArr :=
  { shape := [a.shape.getD 0 0, a.shape.getD 1 0, 3]
    data := a.data.flatMap (fun v => [v, v, v])
    dtype := a.dtype }

/-- `np.transpose(arr, (1, 2, 0))` on a `(C, H, W)` array (line 164).  Only
invoked on rank-3 arrays. -/
def transpose120 (a : NDArr) : NDArr :=
  let c := a.shape.getD 0 0
  let h := a.shape.getD 1 0
  let w := a.shape.getD 2 0
  { shape := [h, w, c]
    data := (List.range h).flatMap (fun i => (List.range w).flatMap (fun j =>
      (List.range c).map (fun k => a.data.getD ((k * h + i) * w + j) 0)))
    dtype := a.dtype }

/-- `arr[:, :, :3]` on a `(H, W, 4)` array (line 173): drop the alpha
channel.  On the row-major flattening this keeps the first three of every
four entries. -/
def dropAlphaData : List ℚ → List ℚ
  | v0 :: v1 :: v2 :: _ :: rest => v0 :: v1 :: v2 :: dropAlphaData rest
  | _ => []

def dropAlpha (a : NDArr) : NDArr :=
  { shape := [a.shape.getD 0 0, a.shape.getD 1 0, 3]
    data := dropAlphaData a.data
    dtype := a.dtype }

/-- `arr[0]`: the first element along the leading axis (lines 180, 187).
Raises `IndexError` when the leading axis has size 0. -/
def firstElem (a : NDArr) : Except String NDArr :=
  if a.ndim = 0 then .error "too many indices for array"
  else if a.shape.getD 0 0 = 0 then .error "index 0 is out of bounds for axis 0 with size 0"
  else .ok { shape := a.shape.tail, data := a.data.take a.shape.tail.prod, dtype := a.dtype }

/-- `np.squeeze(arr, axis=0)` (line 187): drop the leading axis, which must
have size exactly 1. -/
def squeezeAxis0 (a : NDArr) : Except String NDArr :=
  if a.shape.getD 0 0 = 1 then
    .ok { shape := a.shape.tail, data := a.data, dtype := a.dtype }
  else .error "cannot select an axis to squeeze out which has size not equal to one"

/-- The `while arr.ndim > 3` loop of the `ndim > 4` branch (lines 186–187):
`arr = arr[0] if arr.shape[0] > 1 else np.squeeze(arr, axis=0)`.  Each
iteration removes one axis; the loop is entered with `fuel` set to the
array's rank, which strictly bounds the number of iterations, so the
fuel-exhausted branch is unreachable from the call site below. -/
def reduceLoop : ℕ → NDArr → Except String NDArr
  | 0, a => if 3 < a.ndim then .error "loop fuel exhausted" else .ok a
  | fuel + 1, a =>
    if 3 < a.ndim then
      if 1 < a.shape.getD 0 0 then (firstElem a).bind (reduceLoop fuel)
      else (squeezeAxis0 a).bind (reduceLoop fuel)
    else .ok a

/-- The rank-3 layout fixing block (lines 157–175): transpose channel-first
input to channel-last, then bring the channel count to exactly 3. -/
def fixLayout (a : NDArr) : Except String NDArr :=
  let s0 := a.shape.getD 0 0
  let s1 := a.shape.getD 1 0
  let s2 := a.shape.getD 2 0
  let arr := if (s0 = 1 ∨ s0 = 3 ∨ s0 = 4) ∧ s0 < min s1 s2 then transpose120 a else a
  let c := arr.shape.getD 2 0
  if c = 1 then .ok (concat3 arr)
  else if c = 4 then .ok (dropAlpha arr)
  else if c ≠ 3 then .error ("Unexpected number of channels: " ++ toString c)
  else .ok arr

/-- `arr.astype(np.uint8)` on a real value: C-style truncation toward zero
(floor for non-negative values, ceiling for negative ones).  Every call site
below only applies it to values already confined to `[0, 255]` by the
surrounding range checks or clipping. -/
def astypeU8 (q : ℚ) : ℚ :=
  if 0 ≤ q then ((⌊q⌋ : ℤ) : ℚ) else ((-⌊-q⌋ : ℤ) : ℚ)

/-- `np.clip(x, 0, 255)` pointwise. -/
def clip255 (q : ℚ) : ℚ := max 0 (min q 255)

/-- The value-range normalization block (lines 193–212): `uint8` passes
through; float data are scaled according to the observed `min`/`max` range;
anything else is clipped to `[0, 255]` and converted. -/
def normalizeValues (a : NDArr) : Except String NDArr :=
  if a.dtype = .u8 then
    -- already in the correct format: pass through
    .ok a
  else if a.dtype = .f then
    -- `arr.min()` / `arr.max()` raise on an empty array
    if a.data = [] then
      .error "zero-size array to reduction operation minimum which has no identity"
    else
      let mn := rmin a.data
      let mx := rmax a.data
      if mx ≤ 1 ∧ 0 ≤ mn then
        .ok { a with data := a.data.map (fun x => astypeU8 (x * 255)), dtype := .u8 }
      else if mx ≤ 1 ∧ -1 ≤ mn then
        .ok { a with data := a.data.map (fun x => astypeU8 ((x + 1) * (255 / 2))), dtype := .u8 }
      else
        .ok { a with data := a.data.map (fun x => astypeU8 (clip255 x)), dtype := .u8 }
  else
    -- other integer types: clip to the valid range and convert
    .ok { a with data := a.data.map (fun x => astypeU8 (clip255 x)), dtype := .u8 }

/-- The final validation (lines 214–216): the result must be rank 3 with
exactly 3 channels, else the conversion fails. -/
def finalValidate (a : NDArr) : Except String NDArr :=
  if a.ndim = 3 ∧ a.shape.getD 2 0 = 3 then .ok a
  else .error ("Failed to convert to (H, W, 3) format. Got shape: " ++ toString a.shape)

/-- The structural part of `_ensure_pil_image` (squeeze + dimensionality
dispatch, lines 149–191), separated from the value normalization that
follows it in the source.  The `ndim ≥ 4` branches reduce the array and
re-enter the function recursively; `fuel` is instantiated with the array's
rank, which bounds the recursion depth. -/
def structuralAux : ℕ → NDArr → Except String NDArr
  | 0, a =>
    let arr := squeezeAll a
    if arr.ndim = 2 then .ok (stack3 arr)
    else if arr.ndim = 3 then fixLayout arr
    else if arr.ndim = 4 then .error "recursion fuel exhausted"
    else if 4 < arr.ndim then .error "recursion fuel exhausted"
    else .error ("Unexpected array dimensionality: " ++ toString arr.ndim)
  | fuel + 1, a =>
    let arr := squeezeAll a
    if arr.ndim = 2 then .ok (stack3 arr)
    else if arr.ndim = 3 then fixLayout arr
    else if arr.ndim = 4 then (firstElem arr).bind (structuralAux fuel)
    else if 4 < arr.ndim then (reduceLoop arr.ndim arr).bind (structuralAux fuel)
    else .error ("Unexpected array dimensionality: " ++ toString arr.ndim)

/-- The body of `_ensure_pil_image` on an array (lines 146–220): structural
reduction, then value normalization, then final validation.  Recursive calls
(`ndim ≥ 4`) return the inner result directly, as in the source. -/
def ensureAux (fuel : ℕ) (a : NDArr) : Except String NDArr :=
  (structuralAux fuel a).bind (fun r => (normalizeValues r).bind finalValidate)

/-- A frame handed to `_ensure_pil_image`: either an already-decoded RGB
image (returned unchanged, line 136–137) or a numeric array.  Decoded images
are modelled as canonical RGB arrays. -/
inductive Frame where
  | pil : NDArr → Frame
  | nd : NDArr → Frame
  deriving Repr, DecidableEq

/-- The diagnostic carried by the `RuntimeError` raised on conversion
failure (lines 222–234): the original input's type, shape and dtype plus the
inner error text. -/
structure ConvError where
  typeName : String
  shape : List ℕ
  dtypeName : String
  msg : String
  deriving Repr, DecidableEq

/-- `_ensure_pil_image` (local_pipelines.py lines 125–234). -/
def ensurePilImage : Frame → Except ConvError NDArr
  | .pil img => .ok img
  | .nd a =>
    match ensureAux a.ndim a with
    | .ok img => .ok img
    | .error e =>
      .error { typeName := "ndarray", shape := a.shape, dtypeName := a.dtype.name, msg := e }

/-- A canonical image in the sense of the specification's glossary: rank 3,
exactly 3 channels, 8-bit unsigned integer samples. -/
def canonicalImage (a : NDArr) : Prop :=
  a.ndim = 3 ∧ a.shape.getD 2 0 = 3 ∧ a.dtype = .u8 ∧
    ∀ v ∈ a.data, v.den = 1 ∧ 0 ≤ v ∧ v ≤ 255

instance (a : NDArr) : Decidable (canonicalImage a) := by
  unfold canonicalImage; infer_instance

/-! ### Helper lemmas about `rmin`/`rmax` and list operations -/

theorem foldl_min_mem (xs : List ℚ) : ∀ (x : ℚ), xs.foldl min x ∈ x :: xs := by
  induction xs with
  | nil => simp
  | cons y ys ih =>
    intro x
    simp only [List.foldl_cons]
    rcases List.mem_cons.mp (ih (min x y)) with h | h
    · rcases min_choice x y with hm | hm
      · rw [h, hm]; exact List.mem_cons_self _ _
      · rw [h, hm]; exact List.mem_cons.mpr (Or.inr (List.mem_cons_self _ _))
    · exact List.mem_cons.mpr (Or.inr (List.mem_cons.mpr (Or.inr h)))

theorem foldl_max_mem (xs : List ℚ) : ∀ (x : ℚ), xs.foldl max x ∈ x :: xs := by
  induction xs with
  | nil => simp
  | cons y ys ih =>
    intro x
    simp only [List.foldl_cons]
    rcases List.mem_cons.mp (ih (max x y)) with h | h
    · rcases max_choice x y with hm | hm
      · rw [h, hm]; exact List.mem_cons_self _ _
      · rw [h, hm]; exact List.mem_cons.mpr (Or.inr (List.mem_cons_self _ _))
    · exact List.mem_cons.mpr (Or.inr (List.mem_cons.mpr (Or.inr h)))

theorem foldl_min_le (xs : List ℚ) : ∀ (x : ℚ), ∀ y ∈ x :: xs, xs.foldl min x ≤ y := by
  induction xs with
  | nil => intro x y hy; simp at hy; simp [hy]
  | cons z zs ih =>
    intro x y hy
    simp only [List.foldl_cons]
    rcases List.mem_cons.mp hy with h | h
    · rw [h]
      exact (ih (min x z) _ (List.mem_cons_self _ _)).trans (min_le_left _ _)
    · rcases List.mem_cons.mp h with h | h
      · rw [h]
        exact (ih (min x z) _ (List.mem_cons_self _ _)).trans (min_le_right _ _)
      · exact ih (min x z) _ (List.mem_cons.mpr (Or.inr h))

theorem foldl_le_max (xs : List ℚ) : ∀ (x : ℚ), ∀ y ∈ x :: xs, y ≤ xs.foldl max x := by
  induction xs with
  | nil => intro x y hy; simp at hy; simp [hy]
  | cons z zs ih =>
    intro x y hy
    simp only [List.foldl_cons]
    rcases List.mem_cons.mp hy with h | h
    · rw [h]
      exact (le_max_left x z).trans (ih (max x z) _ (List.mem_cons_self _ _))
    · rcases List.mem_cons.mp h with h | h
      · rw [h]
        exact (le_max_right x z).trans (ih (max x z) _ (List.mem_cons_self _ _))
      · exact ih (max x z) _ (List.mem_cons.mpr (Or.inr h))

theorem rmin_mem {l : List ℚ} (h : l ≠ []) : rmin l ∈ l := by
  cases l with
  | nil => exact absurd rfl h
  | cons x xs => exact foldl_min_mem xs x

theorem rmax_mem {l : List ℚ} (h : l ≠ []) : rmax l ∈ l := by
  cases l with
  | nil => exact absurd rfl h
  | cons x xs => exact foldl_max_mem xs x

theorem rmin_le {l : List ℚ} {v : ℚ} (h : v ∈ l) : rmin l ≤ v := by
  cases l with
  | nil => simp at h
  | cons x xs => exact foldl_min_le xs x v h

theorem le_rmax {l : List ℚ} {v : ℚ} (h : v ∈ l) : v ≤ rmax l := by
  cases l with
  | nil => simp at h
  | cons x xs => exact foldl_le_max xs x v h

theorem getD_mem_or_eq (l : List ℚ) (n : ℕ) (d : ℚ) :
    l.getD n d ∈ l ∨ l.getD n d = d := by
  by_cases h : n < l.length
  · left
    rw [List.getD_eq_getElem l d h]
    exact List.getElem_mem h
  · right
    exact List.getD_eq_default l d (by omega)

theorem dropAlphaData_subset : ∀ l : List ℚ, ∀ v ∈ dropAlphaData l, v ∈ l
  | v0 :: v1 :: v2 :: v3 :: rest => by
    intro v hv
    simp only [dropAlphaData, List.mem_cons] at hv ⊢
    rcases hv with h | h | h | h
    · exact Or.inl h
    · exact Or.inr (Or.inl h)
    · exact Or.inr (Or.inr (Or.inl h))
    · exact Or.inr (Or.inr (Or.inr (Or.inr (dropAlphaData_subset rest v h))))
  | [] => by intro v hv; simp [dropAlphaData] at hv
  | [v0] => by intro v hv; simp [dropAlphaData] at hv
  | [v0, v1] => by intro v hv; simp [dropAlphaData] at hv
  | [v0, v1, v2] => by intro v hv; simp [dropAlphaData] at hv

/-! ### Structural stage: dtype preservation and value containment -/

theorem stack3_spec (a : NDArr) :
    (stack3 a).dtype = a.dtype ∧ ∀ v ∈ (stack3 a).data, v ∈ a.data := by
  refine ⟨rfl, ?_⟩
  intro v hv
  simp only [stack3, List.mem_flatMap] at hv
  obtain ⟨w, hw, hv⟩ := hv
  simp only [List.mem_cons, List.not_mem_nil, or_false] at hv
  rcases hv with h | h | h <;> (subst h; exact hw)

theorem concat3_spec (a : NDArr) :
    (concat3 a).dtype = a.dtype ∧ ∀ v ∈ (concat3 a).data, v ∈ a.data := by
  refine ⟨rfl, ?_⟩
  intro v hv
  simp only [concat3, List.mem_flatMap] at hv
  obtain ⟨w, hw, hv⟩ := hv
  simp only [List.mem_cons, List.not_mem_nil, or_false] at hv
  rcases hv with h | h | h <;> (subst h; exact hw)

theorem transpose120_spec (a : NDArr) :
    (transpose120 a).dtype = a.dtype ∧
    ∀ v ∈ (transpose120 a).data, v ∈ a.data ∨ v = 0 := by
  refine ⟨rfl, ?_⟩
  intro v hv
  simp only [transpose120, List.mem_flatMap, List.mem_map] at hv
  obtain ⟨i, _, j, _, k, _, hv⟩ := hv
  subst hv
  exact getD_mem_or_eq a.data _ 0

theorem dropAlpha_spec (a : NDArr) :
    (dropAlpha a).dtype = a.dtype ∧ ∀ v ∈ (dropAlpha a).data, v ∈ a.data :=
  ⟨rfl, fun v hv => dropAlphaData_subset a.data v hv⟩

theorem firstElem_ok_spec {a b : NDArr} (h : firstElem a = .ok b) :
    b.dtype = a.dtype ∧ ∀ v ∈ b.data, v ∈ a.data := by
  unfold firstElem at h
  split at h
  · exact absurd h (by simp)
  · split at h
    · exact absurd h (by simp)
    · injection h with h
      subst h
      exact ⟨rfl, fun v hv => List.mem_of_mem_take hv⟩

theorem squeezeAxis0_ok_spec {a b : NDArr} (h : squeezeAxis0 a = .ok b) :
    b.dtype = a.dtype ∧ ∀ v ∈ b.data, v ∈ a.data := by
  unfold squeezeAxis0 at h
  split at h
  · injection h with h
    subst h
    exact ⟨rfl, fun v hv => hv⟩
  · exact absurd h (by simp)

theorem reduceLoop_ok_spec :
    ∀ (fuel : ℕ) (a b : NDArr), reduceLoop fuel a = .ok b →
      b.dtype = a.dtype ∧ ∀ v ∈ b.data, v ∈ a.data := by
  intro fuel
  induction fuel with
  | zero =>
    intro a b h
    unfold reduceLoop at h
    by_cases hn : 3 < a.ndim
    · rw [if_pos hn] at h; exact absurd h (by simp)
    · rw [if_neg hn] at h
      injection h with h
      subst h
      exact ⟨rfl, fun v hv => hv⟩
  | succ fuel ih =>
    intro a b h
    unfold reduceLoop at h
    by_cases hn : 3 < a.ndim
    · rw [if_pos hn] at h
      by_cases hh : 1 < a.shape.getD 0 0
      · rw [if_pos hh] at h
        cases hfe : firstElem a with
        | error e => rw [hfe] at h; exact absurd h (by simp [Except.bind])
        | ok c =>
          rw [hfe] at h
          simp only [Except.bind] at h
          obtain ⟨hdt, hsub⟩ := ih c b h
          obtain ⟨hdt2, hsub2⟩ := firstElem_ok_spec hfe
          exact ⟨hdt.trans hdt2, fun v hv => hsub2 v (hsub v hv)⟩
      · rw [if_neg hh] at h
        cases hfe : squeezeAxis0 a with
        | error e => rw [hfe] at h; exact absurd h (by simp [Except.bind])
        | ok c =>
          rw [hfe] at h
          simp only [Except.bind] at h
          obtain ⟨hdt, hsub⟩ := ih c b h
          obtain ⟨hdt2, hsub2⟩ := squeezeAxis0_ok_spec hfe
          exact ⟨hdt.trans hdt2, fun v hv => hsub2 v (hsub v hv)⟩
    · rw [if_neg hn] at h
      injection h with h
      subst h
      exact ⟨rfl, fun v hv => hv⟩

theorem fixLayout_ok_spec {a r : NDArr} (h : fixLayout a = .ok r) :
    r.dtype = a.dtype ∧ ∀ v ∈ r.data, v ∈ a.data ∨ v = 0 := by
  unfold fixLayout at h
  simp only at h
  set arr := if (a.shape.getD 0 0 = 1 ∨ a.shape.getD 0 0 = 3 ∨ a.shape.getD 0 0 = 4) ∧
      a.shape.getD 0 0 < min (a.shape.getD 1 0) (a.shape.getD 2 0)
    then transpose120 a else a with harr
  have harr_spec : arr.dtype = a.dtype ∧ ∀ v ∈ arr.data, v ∈ a.data ∨ v = 0 := by
    rw [harr]
    split
    · exact transpose120_spec a
    · exact ⟨rfl, fun v hv => Or.inl hv⟩
  split at h
  · injection h with h
    subst h
    obtain ⟨hd, hsub⟩ := concat3_spec arr
    exact ⟨hd.trans harr_spec.1, fun v hv => harr_spec.2 v (hsub v hv)⟩
  · split at h
    · injection h with h
      subst h
      obtain ⟨hd, hsub⟩ := dropAlpha_spec arr
      exact ⟨hd.trans harr_spec.1, fun v hv => harr_spec.2 v (hsub v hv)⟩
    · split at h
      · exact absurd h (by simp)
      · injection h with h
        subst h
        exact harr_spec

theorem structuralAux_ok_spec :
    ∀ (fuel : ℕ) (a r : NDArr), structuralAux fuel a = .ok r →
      r.dtype = a.dtype ∧ ∀ v ∈ r.data, v ∈ a.data ∨ v = 0 := by
  intro fuel
  induction fuel with
  | zero =>
    intro a r h
    unfold structuralAux at h
    by_cases h2 : (squeezeAll a).ndim = 2
    · rw [if_pos h2] at h
      injection h with h
      subst h
      obtain ⟨hd, hsub⟩ := stack3_spec (squeezeAll a)
      exact ⟨hd, fun v hv => Or.inl (hsub v hv)⟩
    · rw [if_neg h2] at h
      by_cases h3 : (squeezeAll a).ndim = 3
      · rw [if_pos h3] at h
        have hx := fixLayout_ok_spec h
        exact hx
      · rw [if_neg h3] at h
        by_cases h4 : (squeezeAll a).ndim = 4
        · rw [if_pos h4] at h; exact absurd h (by simp)
        · rw [if_neg h4] at h
          by_cases h5 : 4 < (squeezeAll a).ndim
          · rw [if_pos h5] at h; exact absurd h (by simp)
          · rw [if_neg h5] at h; exact absurd h (by simp)
  | succ fuel ih =>
    intro a r h
    unfold structuralAux at h
    by_cases h2 : (squeezeAll a).ndim = 2
    · rw [if_pos h2] at h
      injection h with h
      subst h
      obtain ⟨hd, hsub⟩ := stack3_spec (squeezeAll a)
      exact ⟨hd, fun v hv => Or.inl (hsub v hv)⟩
    · rw [if_neg h2] at h
      by_cases h3 : (squeezeAll a).ndim = 3
      · rw [if_pos h3] at h
        have hx := fixLayout_ok_spec h
        exact hx
      · rw [if_neg h3] at h
        by_cases h4 : (squeezeAll a).ndim = 4
        · rw [if_pos h4] at h
          cases hfe : firstElem (squeezeAll a) with
          | error e => rw [hfe] at h; exact absurd h (by simp [Except.bind])
          | ok b =>
            rw [hfe] at h
            simp only [Except.bind] at h
            obtain ⟨hdt, hsub⟩ := ih b r h
            obtain ⟨hdt2, hsub2⟩ := firstElem_ok_spec hfe
            refine ⟨hdt.trans hdt2, fun v hv => ?_⟩
            rcases hsub v hv with hm | hm
            · exact Or.inl (hsub2 v hm)
            · exact Or.inr hm
        · rw [if_neg h4] at h
          by_cases h5 : 4 < (squeezeAll a).ndim
          · rw [if_pos h5] at h
            cases hrl : reduceLoop (squeezeAll a).ndim (squeezeAll a) with
            | error e => rw [hrl] at h; exact absurd h (by simp [Except.bind])
            | ok b =>
              rw [hrl] at h
              simp only [Except.bind] at h
              obtain ⟨hdt, hsub⟩ := ih b r h
              obtain ⟨hdt2, hsub2⟩ := reduceLoop_ok_spec _ _ _ hrl
              refine ⟨hdt.trans hdt2, fun v hv => ?_⟩
              rcases hsub v hv with hm | hm
              · exact Or.inl (hsub2 v hm)
              · exact Or.inr hm
          · rw [if_neg h5] at h; exact absurd h (by simp)

/-! ### Value normalization: every successful output is 8-bit -/

theorem astypeU8_den (q : ℚ) : (astypeU8 q).den = 1 := by
  unfold astypeU8
  split
  · exact Rat.den_intCast _
  · exact Rat.den_intCast _

theorem astypeU8_bounds {q : ℚ} (h0 : 0 ≤ q) (h255 : q ≤ 255) :
    0 ≤ astypeU8 q ∧ astypeU8 q ≤ 255 := by
  unfold astypeU8
  rw [if_pos h0]
  constructor
  · exact_mod_cast Int.floor_nonneg.mpr h0
  · have h := Int.floor_le q
    have h2 : (⌊q⌋ : ℚ) ≤ 255 := h.trans h255
    exact_mod_cast h2

theorem clip255_bounds (q : ℚ) : 0 ≤ clip255 q ∧ clip255 q ≤ 255 := by
  unfold clip255
  constructor
  · exact le_max_left 0 _
  · exact max_le (by norm_num) (min_le_right q 255)

theorem dtypeOk_transfer {a r : NDArr} (hok : a.dtypeOk) (hdt : r.dtype = a.dtype)
    (hsub : ∀ v ∈ r.data, v ∈ a.data ∨ v = 0) : r.dtypeOk := by
  unfold NDArr.dtypeOk at hok ⊢
  rw [hdt]
  constructor
  · intro hu8 v hv
    rcases hsub v hv with hm | hm
    · exact hok.1 hu8 v hm
    · rw [hm]; norm_num
  · intro hio v hv
    rcases hsub v hv with hm | hm
    · exact hok.2 hio v hm
    · rw [hm]; norm_num

theorem normalizeValues_ok_spec {r s : NDArr} (hok : r.dtypeOk)
    (h : normalizeValues r = .ok s) :
    s.shape = r.shape ∧ s.dtype = .u8 ∧
    ∀ v ∈ s.data, v.den = 1 ∧ 0 ≤ v ∧ v ≤ 255 := by
  unfold normalizeValues at h
  split at h
  · rename_i hdt
    injection h with h
    subst h
    exact ⟨rfl, hdt, hok.1 hdt⟩
  · split at h
    · split at h
      · exact absurd h (by simp)
      · simp only at h
        split at h
        · rename_i hcond
          injection h with h
          subst h
          refine ⟨rfl, rfl, ?_⟩
          intro v hv
          simp only [List.mem_map] at hv
          obtain ⟨y, hy, hv⟩ := hv
          subst hv
          have h0y : 0 ≤ y := hcond.2.trans (rmin_le hy)
          have h1y : y ≤ 1 := (le_rmax hy).trans hcond.1
          have hb := astypeU8_bounds (q := y * 255) (by positivity) (by nlinarith)
          exact ⟨astypeU8_den _, hb.1, hb.2⟩
        · split at h
          · rename_i hcond2
            injection h with h
            subst h
            refine ⟨rfl, rfl, ?_⟩
            intro v hv
            simp only [List.mem_map] at hv
            obtain ⟨y, hy, hv⟩ := hv
            subst hv
            have h0y : (-1 : ℚ) ≤ y := hcond2.2.trans (rmin_le hy)
            have h1y : y ≤ 1 := (le_rmax hy).trans hcond2.1
            have hb := astypeU8_bounds (q := (y + 1) * (255 / 2))
              (by nlinarith) (by nlinarith)
            exact ⟨astypeU8_den _, hb.1, hb.2⟩
          · injection h with h
            subst h
            refine ⟨rfl, rfl, ?_⟩
            intro v hv
            simp only [List.mem_map] at hv
            obtain ⟨y, hy, hv⟩ := hv
            subst hv
            have hb := astypeU8_bounds (clip255_bounds y).1 (clip255_bounds y).2
            exact ⟨astypeU8_den _, hb.1, hb.2⟩
    · injection h with h
      subst h
      refine ⟨rfl, rfl, ?_⟩
      intro v hv
      simp only [List.mem_map] at hv
      obtain ⟨y, hy, hv⟩ := hv
      subst hv
      have hb := astypeU8_bounds (clip255_bounds y).1 (clip255_bounds y).2
      exact ⟨astypeU8_den _, hb.1, hb.2⟩

theorem finalValidate_ok_spec {s img : NDArr} (h : finalValidate s = .ok img) :
    img = s ∧ s.ndim = 3 ∧ s.shape.getD 2 0 = 3 := by
  unfold finalValidate at h
  split at h
  · rename_i hc
    injection h with h
    exact ⟨h.symm, hc.1, hc.2⟩
  · exact absurd h (by simp)

theorem ensureAux_ok_canonical {fuel : ℕ} {a img : NDArr} (hok : a.dtypeOk)
    (h : ensureAux fuel a = .ok img) : canonicalImage img := by
  unfold ensureAux at h
  cases hst : structuralAux fuel a with
  | error e => rw [hst] at h; exact absurd h (by simp [Except.bind])
  | ok r =>
    rw [hst] at h
    simp only [Except.bind] at h
    cases hnv : normalizeValues r with
    | error e => rw [hnv] at h; exact absurd h (by simp)
    | ok s =>
      rw [hnv] at h
      obtain ⟨hdt, hsub⟩ := structuralAux_ok_spec fuel a r hst
      have hrok : r.dtypeOk := dtypeOk_transfer hok hdt hsub
      obtain ⟨hshape, hu8, hvals⟩ := normalizeValues_ok_spec hrok hnv
      obtain ⟨himg, hndim, hch⟩ := finalValidate_ok_spec h
      subst himg
      exact ⟨hndim, hch, hu8, hvals⟩

/-! ## Claim C6 -/

/-- What holds of a frame before conversion: a decoded image input is a
canonical RGB image; a numeric array input carries the guarantees of its
dtype. -/
def frameOk : Frame → Prop
  | .pil img => canonicalImage img
  | .nd a => a.dtypeOk

def frameShape : Frame → List ℕ
  | .pil img => img.shape
  | .nd a => a.shape

def frameDtypeName : Frame → String
  | .pil img => img.dtype.name
  | .nd a => a.dtype.name

/-- **C6.** For every input to `_ensure_pil_image`, either the result is a
canonical rank-3, 3-channel 8-bit image, or the call fails with a diagnostic
that reports the original input's type, shape and element type; a malformed
image is never returned silently. -/
theorem ensure_pil_image_canonical_or_diagnostic (fr : Frame) (hok : frameOk fr) :
    (∃ img, ensurePilImage fr = .ok img ∧ canonicalImage img) ∨
    (∃ e, ensurePilImage fr = .error e ∧ e.typeName = "ndarray" ∧
      e.shape = frameShape fr ∧ e.dtypeName = frameDtypeName fr) := by
  cases fr with
  | pil img => exact Or.inl ⟨img, rfl, hok⟩
  | nd a =>
    cases h : ensureAux a.ndim a with
    | ok img =>
      refine Or.inl ⟨img, ?_, ensureAux_ok_canonical hok h⟩
      simp only [ensurePilImage, h]
    | error e =>
      refine Or.inr ⟨⟨"ndarray", a.shape, a.dtype.name, e⟩, ?_, rfl, rfl, rfl⟩
      simp only [ensurePilImage, h]

/-- Concrete instance of `ensure_pil_image_canonical_or_diagnostic`: a 2×2
`uint8` grayscale array is converted into a canonical image. -/
theorem ensure_pil_image_canonical_or_diagnostic_witness :
    frameOk (.nd ⟨[2, 2], [0, 1, 2, 3], .u8⟩) ∧
    ((∃ img, ensurePilImage (.nd ⟨[2, 2], [0, 1, 2, 3], .u8⟩) = .ok img ∧ canonicalImage img) ∨
     (∃ e, ensurePilImage (.nd ⟨[2, 2], [0, 1, 2, 3], .u8⟩) = .error e ∧ e.typeName = "ndarray" ∧
       e.shape = frameShape (.nd ⟨[2, 2], [0, 1, 2, 3], .u8⟩) ∧
       e.dtypeName = frameDtypeName (.nd ⟨[2, 2], [0, 1, 2, 3], .u8⟩))) := by
  have hok : frameOk (.nd ⟨[2, 2], [0, 1, 2, 3], .u8⟩) := by
    refine ⟨fun _ v hv => ?_, fun hco => absurd hco (by decide)⟩
    simp only [List.mem_cons, List.not_mem_nil, or_false] at hv
    rcases hv with h | h | h | h <;> subst h <;> norm_num
  exact ⟨hok, ensure_pil_image_canonical_or_diagnostic _ hok⟩

/-! ## Claim C5: the affine relation between the `[0,1]` and `[-1,1]` branches

`mapValues` applies a function pointwise to an array's values, leaving shape
and dtype unchanged.  The map `x ↦ (x + 1) / 2` sends a `[-1, 1]`-range
array to its `[0, 1]`-range equivalent. -/

def mapValues (f : ℚ → ℚ) (a : NDArr) : NDArr :=
  { a with data := a.data.map f }

@[simp] theorem mapValues_shape (f : ℚ → ℚ) (a : NDArr) :
    (mapValues f a).shape = a.shape := rfl

@[simp] theorem mapValues_ndim (f : ℚ → ℚ) (a : NDArr) :
    (mapValues f a).ndim = a.ndim := rfl

@[simp] theorem mapValues_dtype (f : ℚ → ℚ) (a : NDArr) :
    (mapValues f a).dtype = a.dtype := rfl

theorem mapValues_data (f : ℚ → ℚ) (a : NDArr) :
    (mapValues f a).data = a.data.map f := rfl

/-! ### Well-formedness is preserved by the structural operations -/

theorem except_map_ok {ε α β : Type} (g : α → β) (x : α) :
    (Except.ok (ε := ε) x).map g = .ok (g x) := rfl

theorem except_map_error {ε α β : Type} (g : α → β) (e : ε) :
    (Except.error (α := α) e).map g = (.error e : Except ε β) := rfl

theorem prod_filter_ne_one (l : List ℕ) :
    (l.filter (fun d => d != 1)).prod = l.prod := by
  induction l with
  | nil => rfl
  | cons d rest ih =>
    by_cases hd : d = 1
    · subst hd; simpa using ih
    · simp only [List.filter_cons]
      have : (d != 1) = true := by simpa using hd
      simp [this, ih]

theorem squeezeAll_wf {a : NDArr} (h : a.wf) : (squeezeAll a).wf := by
  unfold NDArr.wf squeezeAll at *
  simpa [prod_filter_ne_one] using h

theorem firstElem_ok_wf {a b : NDArr} (hwf : a.wf) (he : firstElem a = .ok b) :
    b.wf := by
  unfold firstElem at he
  split at he
  · exact absurd he (by simp)
  · split at he
    · exact absurd he (by simp)
    · rename_i hne hhd
      injection he with he
      subst he
      unfold NDArr.wf at hwf ⊢
      simp only [List.length_take, hwf]
      rcases hs : a.shape with _ | ⟨s, t⟩
      · exact absurd (by simp [NDArr.ndim, hs]) hne
      · rw [hs] at hhd
        simp only [List.getD_cons_zero] at hhd
        simp only [List.tail_cons, List.prod_cons]
        exact min_eq_left (Nat.le_mul_of_pos_left t.prod (by omega))

theorem squeezeAxis0_ok_wf {a b : NDArr} (hwf : a.wf) (he : squeezeAxis0 a = .ok b) :
    b.wf := by
  unfold squeezeAxis0 at he
  split at he
  · rename_i hhd
    injection he with he
    subst he
    unfold NDArr.wf at hwf ⊢
    rcases hs : a.shape with _ | ⟨s, t⟩
    · rw [hs] at hhd; simp [List.getD] at hhd
    · rw [hs] at hhd hwf
      simp only [List.getD_cons_zero] at hhd
      subst hhd
      simp only [List.tail_cons]
      simpa [List.prod_cons] using hwf
  · exact absurd he (by simp)

theorem reduceLoop_ok_wf :
    ∀ (fuel : ℕ) {a b : NDArr}, a.wf → reduceLoop fuel a = .ok b → b.wf := by
  intro fuel
  induction fuel with
  | zero =>
    intro a b hwf h
    unfold reduceLoop at h
    split at h
    · exact absurd h (by simp)
    · injection h with h; subst h; exact hwf
  | succ fuel ih =>
    intro a b hwf h
    unfold reduceLoop at h
    split at h
    · split at h
      · cases hfe : firstElem a with
        | error e => rw [hfe] at h; exact absurd h (by simp [Except.bind])
        | ok c =>
          rw [hfe] at h
          simp only [Except.bind] at h
          exact ih (firstElem_ok_wf hwf hfe) h
      · cases hfe : squeezeAxis0 a with
        | error e => rw [hfe] at h; exact absurd h (by simp [Except.bind])
        | ok c =>
          rw [hfe] at h
          simp only [Except.bind] at h
          exact ih (squeezeAxis0_ok_wf hwf hfe) h
    · injection h with h; subst h; exact hwf

/-! ### The structural stage commutes with pointwise value maps -/

theorem flatMap_triple_map (f : ℚ → ℚ) (l : List ℚ) :
    (l.map f).flatMap (fun v => [v, v, v]) = (l.flatMap (fun v => [v, v, v])).map f := by
  induction l with
  | nil => rfl
  | cons x xs ih => simp [ih]

theorem flatMap_congr_mem {α β : Type} {l : List α} {g g2 : α → List β}
    (H : ∀ x ∈ l, g x = g2 x) : l.flatMap g = l.flatMap g2 := by
  induction l with
  | nil => rfl
  | cons x xs ih =>
    simp only [List.flatMap_cons]
    rw [H x (List.mem_cons_self x xs), ih fun y hy => H y (List.mem_cons.mpr (Or.inr hy))]

theorem map_congr_mem {α β : Type} {l : List α} {g g2 : α → β}
    (H : ∀ x ∈ l, g x = g2 x) : l.map g = l.map g2 := by
  induction l with
  | nil => rfl
  | cons x xs ih =>
    simp only [List.map_cons]
    rw [H x (List.mem_cons_self x xs), ih fun y hy => H y (List.mem_cons.mpr (Or.inr hy))]

theorem getD_map_lt (l : List ℚ) (f : ℚ → ℚ) (n : ℕ) (h : n < l.length) :
    (l.map f).getD n 0 = f (l.getD n 0) := by
  rw [List.getD_eq_getElem l 0 h, List.getD_eq_getElem (l.map f) 0 (by simpa using h)]
  simp

theorem idx3_lt {k i j c h w : ℕ} (hk : k < c) (hi : i < h) (hj : j < w) :
    (k * h + i) * w + j < c * (h * (w * 1)) := by
  have h1 : k * h + i < c * h := by
    have : (k + 1) * h ≤ c * h := Nat.mul_le_mul (by omega) le_rfl
    calc k * h + i < k * h + h := by omega
    _ = (k + 1) * h := by ring
    _ ≤ c * h := this
  have h2 : ((k * h + i) + 1) * w ≤ (c * h) * w := Nat.mul_le_mul h1 le_rfl
  calc (k * h + i) * w + j < (k * h + i) * w + w := by omega
  _ = ((k * h + i) + 1) * w := by ring
  _ ≤ (c * h) * w := h2
  _ = c * (h * (w * 1)) := by ring

theorem squeezeAll_mapValues (f : ℚ → ℚ) (a : NDArr) :
    squeezeAll (mapValues f a) = mapValues f (squeezeAll a) := rfl

theorem stack3_mapValues (f : ℚ → ℚ) (a : NDArr) :
    stack3 (mapValues f a) = mapValues f (stack3 a) := by
  unfold stack3 mapValues
  simp [flatMap_triple_map]

theorem concat3_mapValues (f : ℚ → ℚ) (a : NDArr) :
    concat3 (mapValues f a) = mapValues f (concat3 a) := by
  unfold concat3 mapValues
  simp [flatMap_triple_map]

theorem dropAlphaData_map (f : ℚ → ℚ) : ∀ l : List ℚ,
    dropAlphaData (l.map f) = (dropAlphaData l).map f
  | v0 :: v1 :: v2 :: v3 :: rest => by
    simp only [List.map_cons, dropAlphaData]
    rw [dropAlphaData_map f rest]
  | [] => rfl
  | [v0] => rfl
  | [v0, v1] => rfl
  | [v0, v1, v2] => rfl

theorem dropAlpha_mapValues (f : ℚ → ℚ) (a : NDArr) :
    dropAlpha (mapValues f a) = mapValues f (dropAlpha a) := by
  unfold dropAlpha mapValues
  simp [dropAlphaData_map]

theorem transpose120_mapValues (f : ℚ → ℚ) (a : NDArr) (hwf : a.wf) (h3 : a.ndim = 3) :
    transpose120 (mapValues f a) = mapValues f (transpose120 a) := by
  rcases hs : a.shape with _ | ⟨s0, _ | ⟨s1, _ | ⟨s2, _ | ⟨s4, t4⟩⟩⟩⟩
  · rw [NDArr.ndim, hs] at h3; simp at h3
  · rw [NDArr.ndim, hs] at h3; simp at h3
  · rw [NDArr.ndim, hs] at h3; simp at h3
  case cons.cons.cons.cons => rw [NDArr.ndim, hs] at h3; simp at h3
  have hlen : a.data.length = s0 * (s1 * (s2 * 1)) := by
    rw [hwf, hs]; simp
  unfold transpose120 mapValues
  simp only [hs, List.getD_cons_zero, List.getD_cons_succ, NDArr.mk.injEq]
  refine ⟨trivial, ?_, trivial⟩
  rw [List.map_flatMap]
  refine flatMap_congr_mem ?_
  intro i hi
  rw [List.map_flatMap]
  refine flatMap_congr_mem ?_
  intro j hj
  rw [List.map_map]
  refine map_congr_mem ?_
  intro k hk
  simp only [Function.comp_apply]
  have hidx : (k * s1 + i) * s2 + j < a.data.length := by
    rw [hlen]
    exact idx3_lt (List.mem_range.mp hk) (List.mem_range.mp hi) (List.mem_range.mp hj)
  exact getD_map_lt a.data f _ hidx

theorem firstElem_mapValues (f : ℚ → ℚ) (a : NDArr) :
    firstElem (mapValues f a) = (firstElem a).map (mapValues f) := by
  unfold firstElem
  simp only [mapValues_ndim, mapValues_shape, mapValues_data]
  by_cases h0 : a.ndim = 0
  · rw [if_pos h0, if_pos h0]; rfl
  · rw [if_neg h0, if_neg h0]
    by_cases hh : a.shape.getD 0 0 = 0
    · rw [if_pos hh, if_pos hh]; rfl
    · rw [if_neg hh, if_neg hh, except_map_ok]
      simp only [mapValues, NDArr.mk.injEq, Except.ok.injEq]
      refine ⟨trivial, ?_, trivial⟩
      exact (List.map_take f a.data a.shape.tail.prod).symm

theorem squeezeAxis0_mapValues (f : ℚ → ℚ) (a : NDArr) :
    squeezeAxis0 (mapValues f a) = (squeezeAxis0 a).map (mapValues f) := by
  unfold squeezeAxis0
  simp only [mapValues_shape]
  by_cases hh : a.shape.getD 0 0 = 1
  · rw [if_pos hh, if_pos hh]
    simp [Except.map, mapValues]
  · rw [if_neg hh, if_neg hh]
    simp [Except.map]

theorem reduceLoop_mapValues (f : ℚ → ℚ) :
    ∀ (fuel : ℕ) (a : NDArr),
      reduceLoop fuel (mapValues f a) = (reduceLoop fuel a).map (mapValues f) := by
  intro fuel
  induction fuel with
  | zero =>
    intro a
    unfold reduceLoop
    simp only [mapValues_ndim]
    by_cases h : 3 < a.ndim
    · rw [if_pos h, if_pos h]; rfl
    · rw [if_neg h, if_neg h]; rfl
  | succ fuel ih =>
    intro a
    unfold reduceLoop
    simp only [mapValues_ndim, mapValues_shape]
    by_cases h : 3 < a.ndim
    · rw [if_pos h, if_pos h]
      by_cases hh : 1 < a.shape.getD 0 0
      · rw [if_pos hh, if_pos hh, firstElem_mapValues]
        cases hfe : firstElem a with
        | error e => simp [Except.map, Except.bind]
        | ok b => simp only [Except.map, Except.bind]; exact ih b
      · rw [if_neg hh, if_neg hh, squeezeAxis0_mapValues]
        cases hfe : squeezeAxis0 a with
        | error e => simp [Except.map, Except.bind]
        | ok b => simp only [Except.map, Except.bind]; exact ih b
    · rw [if_neg h, if_neg h]; rfl

theorem fixLayout_mapValues (f : ℚ → ℚ) (a : NDArr) (hwf : a.wf) (h3 : a.ndim = 3) :
    fixLayout (mapValues f a) = (fixLayout a).map (mapValues f) := by
  unfold fixLayout
  simp only [mapValues_shape]
  by_cases hcond : (a.shape.getD 0 0 = 1 ∨ a.shape.getD 0 0 = 3 ∨ a.shape.getD 0 0 = 4) ∧
      a.shape.getD 0 0 < min (a.shape.getD 1 0) (a.shape.getD 2 0)
  · rw [if_pos hcond, if_pos hcond, transpose120_mapValues f a hwf h3]
    simp only [mapValues_shape]
    by_cases hc1 : (transpose120 a).shape.getD 2 0 = 1
    · rw [if_pos hc1, if_pos hc1, concat3_mapValues]
      simp [Except.map]
    · rw [if_neg hc1, if_neg hc1]
      by_cases hc4 : (transpose120 a).shape.getD 2 0 = 4
      · rw [if_pos hc4, if_pos hc4, dropAlpha_mapValues]
        simp [Except.map]
      · rw [if_neg hc4, if_neg hc4]
        by_cases hc3 : (transpose120 a).shape.getD 2 0 ≠ 3
        · rw [if_pos hc3, if_pos hc3]
          simp [Except.map]
        · rw [if_neg hc3, if_neg hc3]
          simp [Except.map]
  · rw [if_neg hcond, if_neg hcond]
    simp only [mapValues_shape]
    by_cases hc1 : a.shape.getD 2 0 = 1
    · rw [if_pos hc1, if_pos hc1, concat3_mapValues]
      simp [Except.map]
    · rw [if_neg hc1, if_neg hc1]
      by_cases hc4 : a.shape.getD 2 0 = 4
      · rw [if_pos hc4, if_pos hc4, dropAlpha_mapValues]
        simp [Except.map]
      · rw [if_neg hc4, if_neg hc4]
        by_cases hc3 : a.shape.getD 2 0 ≠ 3
        · rw [if_pos hc3, if_pos hc3]
          simp [Except.map]
        · rw [if_neg hc3, if_neg hc3]
          simp [Except.map]

theorem structuralAux_mapValues (f : ℚ → ℚ) :
    ∀ (fuel : ℕ) (a : NDArr), a.wf →
      structuralAux fuel (mapValues f a) = (structuralAux fuel a).map (mapValues f) := by
  intro fuel
  induction fuel with
  | zero =>
    intro a hwf
    unfold structuralAux
    simp only [squeezeAll_mapValues, mapValues_ndim]
    by_cases h2 : (squeezeAll a).ndim = 2
    · rw [if_pos h2, if_pos h2, stack3_mapValues]; rfl
    · rw [if_neg h2, if_neg h2]
      by_cases h3 : (squeezeAll a).ndim = 3
      · rw [if_pos h3, if_pos h3]
        exact fixLayout_mapValues f (squeezeAll a) (squeezeAll_wf hwf) h3
      · rw [if_neg h3, if_neg h3]
        by_cases h4 : (squeezeAll a).ndim = 4
        · simp only [if_pos h4]; rfl
        · simp only [if_neg h4]
          by_cases h5 : 4 < (squeezeAll a).ndim
          · simp only [if_pos h5]; rfl
          · simp only [if_neg h5]; rfl
  | succ fuel ih =>
    intro a hwf
    unfold structuralAux
    simp only [squeezeAll_mapValues, mapValues_ndim]
    by_cases h2 : (squeezeAll a).ndim = 2
    · rw [if_pos h2, if_pos h2, stack3_mapValues]; rfl
    · rw [if_neg h2, if_neg h2]
      by_cases h3 : (squeezeAll a).ndim = 3
      · rw [if_pos h3, if_pos h3]
        exact fixLayout_mapValues f (squeezeAll a) (squeezeAll_wf hwf) h3
      · rw [if_neg h3, if_neg h3]
        by_cases h4 : (squeezeAll a).ndim = 4
        · rw [if_pos h4, if_pos h4, firstElem_mapValues]
          cases hfe : firstElem (squeezeAll a) with
          | error e => simp [Except.map, Except.bind]
          | ok b =>
            simp only [Except.map, Except.bind]
            exact ih b (firstElem_ok_wf (squeezeAll_wf hwf) hfe)
        · rw [if_neg h4, if_neg h4]
          by_cases h5 : 4 < (squeezeAll a).ndim
          · rw [if_pos h5, if_pos h5, reduceLoop_mapValues]
            cases hrl : reduceLoop (squeezeAll a).ndim (squeezeAll a) with
            | error e => simp [Except.map, Except.bind]
            | ok b =>
              simp only [Except.map, Except.bind]
              exact ih b (reduceLoop_ok_wf _ (squeezeAll_wf hwf) hrl)
          · rw [if_neg h5, if_neg h5]; rfl

/-! ### Claim C5: counterexample and amended statement

The claim as stated quantifies over *every* float array with values in
`[-1, 1]`.  But an array whose values are all non-negative satisfies the
`[0, 1]` range check first, so both it and its affine equivalent are scaled
by 255 — and then the two normalize differently.  The claim therefore only
holds when the original array actually takes the `[-1, 1]` branch, i.e. when
its structurally reduced data still contains a negative value. -/

/-- A 2×2 constant float frame with value 1/2: its values lie in `[-1, 1]`,
yet it normalizes through the `[0, 1]` branch (to pixel 127) while its
affine `[0, 1]`-equivalent (constant 3/4) normalizes to pixel 191. -/
def cexHalf : NDArr := ⟨[2, 2], [1/2, 1/2, 1/2, 1/2], .f⟩

/-- **C5, as stated, is false**: `cexHalf` is a float frame array with values
in `[-1, 1]`, but `_ensure_pil_image` maps it and its `[0, 1]`-range affine
equivalent to different 8-bit images (127 versus 191 everywhere). -/
theorem ensure_pil_affine_equiv_cex :
    cexHalf.dtype = .f ∧ cexHalf.wf ∧ (∀ v ∈ cexHalf.data, -1 ≤ v ∧ v ≤ 1) ∧
    ensurePilImage (.nd (mapValues (fun x => (x + 1) / 2) cexHalf)) ≠
      ensurePilImage (.nd cexHalf) := by
  refine ⟨rfl, by decide, ?_, ?_⟩
  · intro v hv
    simp only [cexHalf, List.mem_cons, List.not_mem_nil, or_false] at hv
    rcases hv with h | h | h | h <;> rw [h] <;> norm_num
  · have hB : mapValues (fun x => (x + 1) / 2) cexHalf =
        ⟨[2, 2], [3/4, 3/4, 3/4, 3/4], .f⟩ := by
      unfold mapValues cexHalf
      norm_num
    have hnorm1 : normalizeValues
        ⟨[2,2,3], [1/2,1/2,1/2,1/2,1/2,1/2,1/2,1/2,1/2,1/2,1/2,1/2], .f⟩ =
        .ok ⟨[2,2,3], List.replicate 12 (127:ℚ), .u8⟩ := by
      unfold normalizeValues
      norm_num [rmin, rmax, astypeU8, List.replicate]
      rw [if_neg (by decide : ¬(DType.f = DType.u8))]
      rw [if_neg (by decide :
        ¬(([1/2,1/2,1/2,1/2,1/2,1/2,1/2,1/2,1/2,1/2,1/2,1/2] : List ℚ) = []))]
    have hnorm2 : normalizeValues
        ⟨[2,2,3], [3/4,3/4,3/4,3/4,3/4,3/4,3/4,3/4,3/4,3/4,3/4,3/4], .f⟩ =
        .ok ⟨[2,2,3], List.replicate 12 (191:ℚ), .u8⟩ := by
      unfold normalizeValues
      norm_num [rmin, rmax, astypeU8, List.replicate]
      rw [if_neg (by decide : ¬(DType.f = DType.u8))]
      rw [if_neg (by decide :
        ¬(([3/4,3/4,3/4,3/4,3/4,3/4,3/4,3/4,3/4,3/4,3/4,3/4] : List ℚ) = []))]
    have hE1 : ensureAux cexHalf.ndim cexHalf =
        .ok ⟨[2,2,3], List.replicate 12 (127:ℚ), .u8⟩ := by
      have hstep : ensureAux cexHalf.ndim cexHalf =
          (normalizeValues
            ⟨[2,2,3], [1/2,1/2,1/2,1/2,1/2,1/2,1/2,1/2,1/2,1/2,1/2,1/2], .f⟩).bind
            finalValidate := rfl
      rw [hstep, hnorm1]
      rfl
    have hE2 : ensureAux (⟨[2, 2], [3/4, 3/4, 3/4, 3/4], .f⟩ : NDArr).ndim
        ⟨[2, 2], [3/4, 3/4, 3/4, 3/4], .f⟩ =
        .ok ⟨[2,2,3], List.replicate 12 (191:ℚ), .u8⟩ := by
      have hstep : ensureAux (⟨[2, 2], [3/4, 3/4, 3/4, 3/4], .f⟩ : NDArr).ndim
          ⟨[2, 2], [3/4, 3/4, 3/4, 3/4], .f⟩ =
          (normalizeValues
            ⟨[2,2,3], [3/4,3/4,3/4,3/4,3/4,3/4,3/4,3/4,3/4,3/4,3/4,3/4], .f⟩).bind
            finalValidate := rfl
      rw [hstep, hnorm2]
      rfl
    rw [hB]
    simp only [ensurePilImage]
    rw [hE1, hE2]
    intro hcl
    injection hcl with hcl
    simp only [NDArr.mk.injEq, List.replicate, List.cons.injEq] at hcl
    have h191 : (191 : ℚ) = 127 := hcl.2.1.1
    norm_num at h191

/-- **C5 (amended).** For every float frame array with values in `[-1, 1]`
whose structurally reduced data still contains a negative value — i.e. the
`[-1, 1]` branch is the one actually taken — `_ensure_pil_image` maps the
array and its `[0, 1]`-range affine equivalent `x ↦ (x + 1) / 2` to the same
result: the `[0, 1]` branch scales by 255 and the `[-1, 1]` branch maps by
`(x + 1) * 127.5`, and these agree on corresponding inputs. -/
theorem ensure_pil_affine_equiv (a r : NDArr) (hwf : a.wf) (hdt : a.dtype = .f)
    (hrange : ∀ v ∈ a.data, -1 ≤ v ∧ v ≤ 1)
    (hstruct : structuralAux a.ndim a = .ok r)
    (hneg : rmin r.data < 0) :
    ensurePilImage (.nd (mapValues (fun x => (x + 1) / 2) a)) =
      ensurePilImage (.nd a) := by
  obtain ⟨hrdt, hsub⟩ := structuralAux_ok_spec _ _ _ hstruct
  have hr_range : ∀ v ∈ r.data, -1 ≤ v ∧ v ≤ 1 := by
    intro v hv
    rcases hsub v hv with hm | hm
    · exact hrange v hm
    · rw [hm]; constructor <;> norm_num
  have hne : r.data ≠ [] := by
    intro hnil
    rw [hnil] at hneg
    simp [rmin] at hneg
  have hdtr : r.dtype = .f := hrdt.trans hdt
  -- the original reduced array takes the [-1, 1] branch
  have hnA : normalizeValues r =
      .ok (NDArr.mk r.shape
        (r.data.map (fun x => astypeU8 ((x + 1) * (255 / 2)))) .u8) := by
    unfold normalizeValues
    rw [if_neg (by rw [hdtr]; decide), if_pos hdtr, if_neg hne]
    simp only
    rw [if_neg (fun hc => absurd hc.2 (not_le.mpr hneg))]
    rw [if_pos ⟨(hr_range _ (rmax_mem hne)).2, (hr_range _ (rmin_mem hne)).1⟩]
  -- the mapped array takes the [0, 1] branch
  have hBne : (r.data.map (fun x => (x + 1) / 2)) ≠ [] := by
    intro hnil
    exact hne (List.map_eq_nil_iff.mp hnil)
  have hmax : rmax (r.data.map (fun x => (x + 1) / 2)) ≤ 1 := by
    obtain ⟨x₀, hx₀, hfx⟩ := List.mem_map.mp (rmax_mem hBne)
    rw [← hfx]
    have h1 := (hr_range x₀ hx₀).2
    linarith
  have hmin : 0 ≤ rmin (r.data.map (fun x => (x + 1) / 2)) := by
    obtain ⟨x₀, hx₀, hfx⟩ := List.mem_map.mp (rmin_mem hBne)
    rw [← hfx]
    have h1 := (hr_range x₀ hx₀).1
    linarith
  have hnB : normalizeValues (mapValues (fun x => (x + 1) / 2) r) =
      .ok (NDArr.mk (mapValues (fun x => (x + 1) / 2) r).shape
        ((r.data.map (fun x => (x + 1) / 2)).map (fun x => astypeU8 (x * 255))) .u8) := by
    unfold normalizeValues
    rw [if_neg (by rw [mapValues_dtype, hdtr]; decide),
      if_pos (by rw [mapValues_dtype, hdtr])]
    rw [if_neg (show ¬((mapValues (fun x => (x + 1) / 2) r).data = []) from hBne)]
    simp only
    rw [if_pos (show rmax (mapValues (fun x => (x + 1) / 2) r).data ≤ 1 ∧
      0 ≤ rmin (mapValues (fun x => (x + 1) / 2) r).data from ⟨hmax, hmin⟩)]
    rfl
  -- the two normalized outputs coincide
  have hdata_eq : (r.data.map (fun x => (x + 1) / 2)).map (fun x => astypeU8 (x * 255)) =
      r.data.map (fun x => astypeU8 ((x + 1) * (255 / 2))) := by
    rw [List.map_map]
    refine map_congr_mem ?_
    intro x hx
    simp only [Function.comp_apply]
    congr 1
    ring
  have hok_eq : NDArr.mk (mapValues (fun x => (x + 1) / 2) r).shape
      ((r.data.map (fun x => (x + 1) / 2)).map (fun x => astypeU8 (x * 255))) .u8 =
      NDArr.mk r.shape
        (r.data.map (fun x => astypeU8 ((x + 1) * (255 / 2)))) .u8 := by
    rw [mapValues_shape, hdata_eq]
  -- assemble: the full conversions agree
  have hstructB : structuralAux a.ndim (mapValues (fun x => (x + 1) / 2) a) =
      .ok (mapValues (fun x => (x + 1) / 2) r) := by
    rw [structuralAux_mapValues _ a.ndim a hwf, hstruct]
    rfl
  have hEA : ensureAux a.ndim a =
      finalValidate (NDArr.mk r.shape
        (r.data.map (fun x => astypeU8 ((x + 1) * (255 / 2)))) .u8) := by
    unfold ensureAux
    rw [hstruct]
    simp only [Except.bind]
    rw [hnA]
  have hEB : ensureAux (mapValues (fun x => (x + 1) / 2) a).ndim
      (mapValues (fun x => (x + 1) / 2) a) =
      finalValidate (NDArr.mk r.shape
        (r.data.map (fun x => astypeU8 ((x + 1) * (255 / 2)))) .u8) := by
    unfold ensureAux
    rw [mapValues_ndim, hstructB]
    simp only [Except.bind]
    rw [hnB, hok_eq]
  simp only [ensurePilImage]
  rw [hEA, hEB]
  simp only [mapValues_shape, mapValues_dtype]

/-- Concrete instance of `ensure_pil_affine_equiv`: a 2×2 float frame with
two negative entries and its affine `[0, 1]`-range equivalent convert to the
same image. -/
theorem ensure_pil_affine_equiv_witness :
    ((⟨[2, 2], [-1/2, 1/2, 1/4, -1/4], .f⟩ : NDArr).wf ∧
     (⟨[2, 2], [-1/2, 1/2, 1/4, -1/4], .f⟩ : NDArr).dtype = .f ∧
     (∀ v ∈ (⟨[2, 2], [-1/2, 1/2, 1/4, -1/4], .f⟩ : NDArr).data, -1 ≤ v ∧ v ≤ 1) ∧
     structuralAux (⟨[2, 2], [-1/2, 1/2, 1/4, -1/4], .f⟩ : NDArr).ndim
       ⟨[2, 2], [-1/2, 1/2, 1/4, -1/4], .f⟩ =
       .ok ⟨[2, 2, 3], [-1/2, -1/2, -1/2, 1/2, 1/2, 1/2, 1/4, 1/4, 1/4,
         -1/4, -1/4, -1/4], .f⟩ ∧
     rmin [-1/2, -1/2, -1/2, 1/2, 1/2, 1/2, 1/4, 1/4, 1/4, -1/4, -1/4, -1/4] < 0) ∧
    ensurePilImage (.nd (mapValues (fun x => (x + 1) / 2)
        ⟨[2, 2], [-1/2, 1/2, 1/4, -1/4], .f⟩)) =
      ensurePilImage (.nd ⟨[2, 2], [-1/2, 1/2, 1/4, -1/4], .f⟩) := by
  have hwf : (⟨[2, 2], [-1/2, 1/2, 1/4, -1/4], .f⟩ : NDArr).wf := by decide
  have hdt : (⟨[2, 2], [-1/2, 1/2, 1/4, -1/4], .f⟩ : NDArr).dtype = .f := rfl
  have hrange : ∀ v ∈ (⟨[2, 2], [-1/2, 1/2, 1/4, -1/4], .f⟩ : NDArr).data,
      -1 ≤ v ∧ v ≤ 1 := by
    intro v hv
    simp only [List.mem_cons, List.not_mem_nil, or_false] at hv
    rcases hv with h | h | h | h <;> rw [h] <;> constructor <;> norm_num
  have hstruct : structuralAux (⟨[2, 2], [-1/2, 1/2, 1/4, -1/4], .f⟩ : NDArr).ndim
      ⟨[2, 2], [-1/2, 1/2, 1/4, -1/4], .f⟩ =
      .ok ⟨[2, 2, 3], [-1/2, -1/2, -1/2, 1/2, 1/2, 1/2, 1/4, 1/4, 1/4,
        -1/4, -1/4, -1/4], .f⟩ := rfl
  have hneg : rmin [-1/2, -1/2, -1/2, 1/2, 1/2, 1/2, 1/4, 1/4, 1/4,
      -1/4, -1/4, -1/4] < 0 := by
    norm_num [rmin]
  exact ⟨⟨hwf, hdt, hrange, hstruct, hneg⟩,
    ensure_pil_affine_equiv _ _ hwf hdt hrange hstruct hneg⟩

/-! ## The Placeholder backend

`_create_placeholder_frames` / `_create_motion_from_base` / `_enhance_image`
(generator.py lines 303–325, 376–442).  The PIL text drawing and enhancement
passes and the cv2 warp/remap and RNG grain are external library calls; the
model carries them as parameters (`CvOps`) together with the shape contracts
those libraries document (`CvOpsSpec`).  The parts owned by this repository —
the base-image construction, the frame loop, and the final
`np.clip(..., 0, 255).astype(np.uint8)` — are modelled concretely. -/

structure CvOps where
  /-- `ImageDraw.Draw(base)` + `draw.text(...)` over the base image
  (values change, geometry does not); a drawing failure leaves the base
  unchanged, which the contract also covers. -/
  drawText : String → NDArr → NDArr
  /-- `_enhance_image`: four `ImageEnhance` passes over an RGB image. -/
  enhance : NDArr → NDArr
  /-- `cv2.warpAffine(base, M, (w, h), ...)` at frame index `i`; the output
  raster has `dsize` `(w, h)` and the input's channel count. -/
  warpAffine : ℕ → NDArr → ℕ → ℕ → NDArr
  /-- `cv2.remap(warped, map_x, map_y, ...)` at frame index `i`; `map_x`
  and `map_y` have the raster's own shape, so the output repeats it. -/
  remap : NDArr → ℕ → NDArr
  /-- the exposure/white-balance perturbation and the additive grain noise
  at frame index `i` (pointwise; shape-preserving). -/
  perturb : ℕ → NDArr → NDArr

/-- The shape contracts of the external image operations. -/
structure CvOpsSpec (ops : CvOps) : Prop where
  drawText_shape : ∀ s a, (ops.drawText s a).shape = a.shape
  drawText_dtype : ∀ s a, (ops.drawText s a).dtype = a.dtype
  drawText_len : ∀ s a, (ops.drawText s a).data.length = a.data.length
  enhance_shape : ∀ a, (ops.enhance a).shape = a.shape
  enhance_dtype : ∀ a, (ops.enhance a).dtype = a.dtype
  enhance_len : ∀ a, (ops.enhance a).data.length = a.data.length
  warpAffine_shape : ∀ i a w h, (ops.warpAffine i a w h).shape = [h, w, 3]
  warpAffine_len : ∀ i a w h, (ops.warpAffine i a w h).data.length = h * w * 3
  remap_shape : ∀ a i, (ops.remap a i).shape = a.shape
  remap_len : ∀ a i, (ops.remap a i).data.length = a.data.length
  perturb_shape : ∀ i a, (ops.perturb i a).shape = a.shape
  perturb_len : ∀ i a, (ops.perturb i a).data.length = a.data.length

/-- The final `np.clip(frame + noise, 0, 255).astype(np.uint8)` of each
placeholder frame (generator.py line 438). -/
def clipCastFrame (a : NDArr) : NDArr :=
  { a with data := a.data.map (fun q => astypeU8 (clip255 q)), dtype := .u8 }

/-- `Image.new('RGB', (width, height), color=(10, 10, 15))` as a numpy
array: shape `(height, width, 3)`, uint8. -/
def mkBaseImage (width height : ℕ) : NDArr :=
  { shape := [height, width, 3]
    data := (List.range (height * width)).flatMap (fun _ => [10, 10, 15])
    dtype := .u8 }

/-- `_create_motion_from_base` (generator.py lines 386–442): cast the base
to float32, then for each frame index apply the affine camera warp, the
displacement-field remap, the exposure/colour/grain perturbation, and
finally clip to `[0, 255]` and cast to uint8. -/
def createMotionFromBase (ops : CvOps) (base_image : NDArr) (num_frames : ℕ) : List NDArr :=
  let base := { base_image with dtype := DType.f }  -- np.array(...).astype(np.float32)
  let h := base.shape.getD 0 0
  let w := base.shape.getD 1 0
  (List.range num_frames).map (fun i =>
    clipCastFrame (ops.perturb i (ops.remap (ops.warpAffine i base w h) i)))

/-- `_create_placeholder_frames` (generator.py lines 303–325): synthesize a
base image carrying the prompt text, enhance it, and animate it. -/
def createPlaceholderFrames (ops : CvOps) (width height num_frames : ℕ)
    (prompt : String) : List NDArr :=
  let base := ops.drawText prompt (mkBaseImage width height)
  let enhanced := ops.enhance base
  createMotionFromBase ops enhanced num_frames

/-- Every placeholder frame list has exactly `num_frames` entries. -/
theorem createPlaceholderFrames_length (ops : CvOps) (width height num_frames : ℕ)
    (prompt : String) :
    (createPlaceholderFrames ops width height num_frames prompt).length = num_frames := by
  unfold createPlaceholderFrames createMotionFromBase
  simp

/-! ## Claim C10 -/

/-- **C10.** For every frame count and every width and height, the
Placeholder backend returns exactly `num_frames` frames, and every frame is
an 8-bit unsigned integer array of shape `(height, width, 3)` — a canonical
image in the sense of the glossary (rank 3, 3 channels, 8-bit), which is
what makes it safe for every downstream consumer of canonical frames. -/
theorem placeholder_frames_canonical (ops : CvOps) (hspec : CvOpsSpec ops)
    (width height num_frames : ℕ) (prompt : String) :
    (createPlaceholderFrames ops width height num_frames prompt).length = num_frames ∧
    ∀ fr ∈ createPlaceholderFrames ops width height num_frames prompt,
      fr.shape = [height, width, 3] ∧ fr.dtype = .u8 ∧ fr.wf ∧ canonicalImage fr := by
  refine ⟨createPlaceholderFrames_length ops width height num_frames prompt, ?_⟩
  intro fr hfr
  unfold createPlaceholderFrames createMotionFromBase at hfr
  simp only [List.mem_map, List.mem_range] at hfr
  obtain ⟨i, hi, hfr⟩ := hfr
  subst hfr
  set base := ops.drawText prompt (mkBaseImage width height) with hbase
  set enhanced := ops.enhance base with henh
  have hshape_enh : enhanced.shape = [height, width, 3] := by
    rw [henh, hspec.enhance_shape, hbase, hspec.drawText_shape]
    rfl
  have hbd : ({ enhanced with dtype := DType.f } : NDArr).shape.getD 0 0 = height := by
    simp [hshape_enh]
  have hwd : ({ enhanced with dtype := DType.f } : NDArr).shape.getD 1 0 = width := by
    simp [hshape_enh]
  rw [hbd, hwd]
  set inner := ops.perturb i (ops.remap (ops.warpAffine i { enhanced with dtype := DType.f }
    width height) i) with hinner
  have hshape : inner.shape = [height, width, 3] := by
    rw [hinner, hspec.perturb_shape, hspec.remap_shape, hspec.warpAffine_shape]
  have hlen : inner.data.length = height * width * 3 := by
    rw [hinner, hspec.perturb_len, hspec.remap_len, hspec.warpAffine_len]
  have hshape' : (clipCastFrame inner).shape = [height, width, 3] := hshape
  refine ⟨hshape', rfl, ?_, ?_⟩
  · unfold NDArr.wf clipCastFrame
    simp only [List.length_map, hshape, hlen]
    simp [Nat.mul_assoc]
  · refine ⟨by simp [NDArr.ndim, hshape'], by simp [hshape'], rfl, ?_⟩
    intro v hv
    simp only [clipCastFrame, List.mem_map] at hv
    obtain ⟨y, hy, hv⟩ := hv
    subst hv
    have hb := astypeU8_bounds (clip255_bounds y).1 (clip255_bounds y).2
    exact ⟨astypeU8_den _, hb.1, hb.2⟩

/-- Trivial instantiation of the external-operation contracts, used to
exhibit `placeholder_frames_canonical` on a concrete input. -/
def constOps : CvOps :=
  { drawText := fun _ a => a
    enhance := fun a => a
    warpAffine := fun _ _ w h => ⟨[h, w, 3], List.replicate (h * w * 3) 0, .f⟩
    remap := fun a _ => a
    perturb := fun _ a => a }

theorem constOps_spec : CvOpsSpec constOps := by
  constructor <;> intros <;> simp [constOps]

/-- Concrete instance of `placeholder_frames_canonical`: 3 frames at 2×2. -/
theorem placeholder_frames_canonical_witness :
    (createPlaceholderFrames constOps 2 2 3 "ocean sunrise").length = 3 ∧
    ∀ fr ∈ createPlaceholderFrames constOps 2 2 3 "ocean sunrise",
      fr.shape = [2, 2, 3] ∧ fr.dtype = .u8 ∧ fr.wf ∧ canonicalImage fr :=
  placeholder_frames_canonical constOps constOps_spec 2 2 3 "ocean sunrise"

/-! ## The worker thread: `_generate_thread` and the backend fallback chain

`_generate_thread` (generator.py lines 115–233) together with
`_generate_with_local_model` (lines 327–374) and `resolve_local_repo_id`
(local_pipelines.py lines 50–58).  File-system and network interactions are
oracles in `WorkerEnv`; all thrown exceptions are modelled as `Except`
values caught at the worker boundary, which merges the failure fields into
the job entry exactly as `_update_generation_status` does. -/

/-- `LOCAL_MODEL_REPOS` (local_pipelines.py lines 50–53). -/
def LOCAL_MODEL_REPOS : List (String × String) :=
  [("zeroscope-local", "cerspense/zeroscope_v2_576w"),
   ("modelscope-local", "ali-vilab/modelscope-damo-text-to-video-synthesis")]

/-- `resolve_local_repo_id` (local_pipelines.py lines 56–58). -/
def resolveLocalRepoId (key : String) : Option String :=
  (LOCAL_MODEL_REPOS.find? (fun p => p.1 == key)).map Prod.snd

/-- Result of `_generate_with_hf_api`: either raw encoded video bytes (an
opaque byte count stands for the payload) or an image sequence. -/
inductive HfOutcome where
  | videoBytes : ℕ → HfOutcome
  | frameSeq : List NDArr → HfOutcome
  deriving Repr

/-- The oracles a worker run interacts with: the local model registry and
disk state, the outcome of the local pipeline and of the cloud call, and
whether the raw-bytes save succeeds. -/
structure WorkerEnv where
  /-- `registry.model_info(repo)["downloaded"]` (models.py `is_downloaded`). -/
  isDownloaded : String → Bool
  /-- `Path(model_path).exists()` for the model directory. -/
  modelDirExists : String → Bool
  /-- outcome of `generate_local_video` once all registry checks passed. -/
  localGenerate : Except String (List NDArr)
  /-- outcome of `_generate_with_hf_api` (raised exceptions as `.error`). -/
  hfResult : Except String HfOutcome
  /-- `video_storage.save_video_bytes(...)`. -/
  saveBytesOk : Bool

/-- `_generate_with_local_model` (generator.py lines 327–374): resolve the
selector, require the model to be downloaded and its directory present, then
run the pipeline.  (`model_info` always records a non-empty path string, so
the `not model_path` guard of line 356 cannot fire and is not modelled.) -/
def generateWithLocalModel (env : WorkerEnv) (key : String) :
    Except String (List NDArr) :=
  match resolveLocalRepoId key with
  | none => .error ("Unknown local model key: " ++ key)
  | some repo =>
    if env.isDownloaded repo = false then
      .error ("Local model '" ++ repo ++
        "' is not downloaded. Trigger a download from the UI before using it.")
    else if env.modelDirExists repo = false then
      .error ("Local model directory does not exist on disk: " ++ repo)
    else env.localGenerate

/-- The failure handler of the worker (generator.py lines 231–233): merge
`failed`, the error text and the elapsed time into the current entry. -/
def failState (st : JobState) (e : String) : JobState :=
  { st with
      status := some "failed"
      error := some e
      message := some "Failed"
      elapsedSet := true }

/-- The success path tail (generator.py lines 229–230). -/
def completeState (st : JobState) : JobState :=
  { st with
      status := some "completed"
      progress := some 100
      message := some "Completed"
      elapsedSet := true }

/-- The common frame-persist tail of the worker (generator.py lines
209–230): when frames were already extracted from a saved video the count is
read back from metadata/disk (no effect on the job fields), otherwise an
empty frame list aborts and a non-empty one is saved before completion. -/
def persistAndComplete (st : JobState) (frames : Option (List NDArr)) : JobState :=
  match frames with
  | none => completeState st
  | some fs =>
    if fs.length = 0 then failState st "No frames generated"
    else completeState { st with
      status := some "processing"
      progress := some 80
      message := some "Saving frames" }

/-- Steps 2–3 of the worker (generator.py lines 163–230), after the local
attempt produced `frames` and/or `localError`. -/
def workerRest (env : WorkerEnv) (ops : CvOps) (st : JobState)
    (prompt : String) (num_frames width height : Int)
    (useHfApi : Bool) (hasLocalKey : Bool) (frames : Option (List NDArr))
    (localError : Option String) : JobState :=
  if frames.isNone ∧ useHfApi then
    let st3 :=
      if hasLocalKey ∧ localError.isSome then
        { st with
          progress := some 30
          message := some "Local model unavailable, falling back to Hugging Face" }
      else
        { st with
          progress := some 30
          message := some "Contacting Hugging Face Inference API" }
    match env.hfResult with
    | .error e => failState st3 e
    | .ok (.videoBytes _) =>
      let st4 := { st3 with
        progress := some 60
        message := some "Downloading and saving video" }
      if env.saveBytesOk = false then
        failState st4 "Failed to save video file from HF response"
      else
        let st5 := { st4 with progress := some 75, message := some "Extracting frames" }
        persistAndComplete st5 none
    | .ok (.frameSeq fs) =>
      let st4 := { st3 with
        progress := some 55
        message := some "Processing frames from API" }
      persistAndComplete st4 (some fs)
  else if frames.isNone ∧ useHfApi = false then
    match localError with
    | some e => failState st e
    | none =>
      let st3 := { st with
        progress := some 30
        message := some "Using placeholder local generator" }
      persistAndComplete st3
        (some (createPlaceholderFrames ops width.toNat height.toNat num_frames.toNat prompt))
  else persistAndComplete st frames

/-- `_generate_thread` (generator.py lines 115–233). -/
def generateThread (env : WorkerEnv) (ops : CvOps) (st0 : JobState)
    (prompt : String) (num_frames fps width height : Int)
    (useHfApi : Bool) (localModelKey : Option String) : JobState :=
  let st1 := { st0 with
    status := some "processing"
    progress := some 10
    message := some "Preparing request" }
  match localModelKey with
  | none => workerRest env ops st1 prompt num_frames width height useHfApi false none none
  | some key =>
    let st2 := { st1 with progress := some 20, message := some "Loading local model" }
    match generateWithLocalModel env key with
    | .ok fs => workerRest env ops st2 prompt num_frames width height useHfApi true (some fs) none
    | .error e => workerRest env ops st2 prompt num_frames width height useHfApi true none (some e)

/-! ## Claim C3 -/

/-- **C3.** For every submitted job (non-empty prompt, storage available)
with cloud fallback disabled and no local model selector, the worker
synthesizes frames via the Placeholder backend and the job reaches terminal
status `completed` with progress 100 — it never fails for lack of a
backend. -/
theorem worker_placeholder_completes (env : WorkerEnv) (ops : CvOps)
    (prompt : String) (nfRaw fpsRaw wRaw hRaw : Int) (jobId videoId : String)
    (hprompt : emptyPrompt prompt = false) :
    (generateVideo prompt nfRaw fpsRaw wRaw hRaw true jobId videoId).workerSpawned = true ∧
    (generateThread env ops (generateVideo prompt nfRaw fpsRaw wRaw hRaw true jobId videoId).job
        prompt (clampParams nfRaw fpsRaw wRaw hRaw).num_frames
        (clampParams nfRaw fpsRaw wRaw hRaw).fps
        (clampParams nfRaw fpsRaw wRaw hRaw).width
        (clampParams nfRaw fpsRaw wRaw hRaw).height
        false none).status = some "completed" ∧
    (generateThread env ops (generateVideo prompt nfRaw fpsRaw wRaw hRaw true jobId videoId).job
        prompt (clampParams nfRaw fpsRaw wRaw hRaw).num_frames
        (clampParams nfRaw fpsRaw wRaw hRaw).fps
        (clampParams nfRaw fpsRaw wRaw hRaw).width
        (clampParams nfRaw fpsRaw wRaw hRaw).height
        false none).progress = some 100 := by
  have hspawn : (generateVideo prompt nfRaw fpsRaw wRaw hRaw true jobId videoId).workerSpawned
      = true := by
    unfold generateVideo
    rw [if_neg (by simp [hprompt])]
    simp
  refine ⟨hspawn, ?_⟩
  have hnf : 1 ≤ (clampParams nfRaw fpsRaw wRaw hRaw).num_frames := by
    simp only [clampParams, clampRange]
    omega
  have hlen : createPlaceholderFrames ops
      (clampParams nfRaw fpsRaw wRaw hRaw).width.toNat
      (clampParams nfRaw fpsRaw wRaw hRaw).height.toNat
      (clampParams nfRaw fpsRaw wRaw hRaw).num_frames.toNat prompt ≠ [] := by
    intro hnil
    have hl := createPlaceholderFrames_length ops
      (clampParams nfRaw fpsRaw wRaw hRaw).width.toNat
      (clampParams nfRaw fpsRaw wRaw hRaw).height.toNat
      (clampParams nfRaw fpsRaw wRaw hRaw).num_frames.toNat prompt
    rw [hnil] at hl
    simp only [List.length_nil] at hl
    omega
  simp only [generateThread, workerRest, persistAndComplete]
  norm_num
  rw [if_neg hlen]
  exact ⟨rfl, rfl⟩

/-- Concrete instance of `worker_placeholder_completes`. -/
theorem worker_placeholder_completes_witness :
    emptyPrompt "ocean sunrise" = false ∧
    ((generateVideo "ocean sunrise" 8 8 256 256 true "j1" "v1").workerSpawned = true ∧
     (generateThread ⟨fun _ => false, fun _ => false, .error "unused", .error "unused", true⟩
        constOps (generateVideo "ocean sunrise" 8 8 256 256 true "j1" "v1").job
        "ocean sunrise" (clampParams 8 8 256 256).num_frames (clampParams 8 8 256 256).fps
        (clampParams 8 8 256 256).width (clampParams 8 8 256 256).height
        false none).status = some "completed" ∧
     (generateThread ⟨fun _ => false, fun _ => false, .error "unused", .error "unused", true⟩
        constOps (generateVideo "ocean sunrise" 8 8 256 256 true "j1" "v1").job
        "ocean sunrise" (clampParams 8 8 256 256).num_frames (clampParams 8 8 256 256).fps
        (clampParams 8 8 256 256).width (clampParams 8 8 256 256).height
        false none).progress = some 100) :=
  ⟨by decide, worker_placeholder_completes _ constOps "ocean sunrise" 8 8 256 256 "j1" "v1"
    (by decide)⟩

/-! ## Claim C4 -/

/-- **C4.** For every submitted job with a local model selector whose model
is not present in local storage and with cloud fallback disabled, the job
reaches terminal `failed` status and its error is the recorded local-model
error (the "not downloaded" message), not a generic failure message. -/
theorem worker_local_missing_fails (env : WorkerEnv) (ops : CvOps) (st0 : JobState)
    (prompt : String) (num_frames fps width height : Int) (key repo : String)
    (hres : resolveLocalRepoId key = some repo)
    (hdl : env.isDownloaded repo = false) :
    (generateThread env ops st0 prompt num_frames fps width height false (some key)).status
      = some "failed" ∧
    (generateThread env ops st0 prompt num_frames fps width height false (some key)).error
      = some ("Local model '" ++ repo ++
        "' is not downloaded. Trigger a download from the UI before using it.") := by
  simp only [generateThread, generateWithLocalModel, hres]
  rw [if_pos hdl]
  simp only [workerRest, persistAndComplete]
  norm_num
  exact ⟨rfl, rfl⟩

/-- Concrete instance of `worker_local_missing_fails` on the
`zeroscope-local` selector with an empty registry. -/
theorem worker_local_missing_fails_witness :
    resolveLocalRepoId "zeroscope-local" = some "cerspense/zeroscope_v2_576w" ∧
    ((generateThread ⟨fun _ => false, fun _ => false, .error "unused", .error "unused", true⟩
        constOps {} "city at night" 24 8 512 512 false (some "zeroscope-local")).status
      = some "failed" ∧
     (generateThread ⟨fun _ => false, fun _ => false, .error "unused", .error "unused", true⟩
        constOps {} "city at night" 24 8 512 512 false (some "zeroscope-local")).error
      = some ("Local model 'cerspense/zeroscope_v2_576w' is not downloaded. " ++
        "Trigger a download from the UI before using it.")) := by
  refine ⟨by decide, ?_⟩
  have h := worker_local_missing_fails
    ⟨fun _ => false, fun _ => false, .error "unused", .error "unused", true⟩
    constOps {} "city at night" 24 8 512 512 "zeroscope-local" "cerspense/zeroscope_v2_576w"
    (by decide) rfl
  simpa using h

/-! ## The Cloud backend: `_generate_with_hf_api` (generator.py lines 235–301)

The two HTTP endpoints are abstracted as a response oracle; the model records
which endpoints were actually posted to, so "fails before any network
request" is the statement that the call list is empty. -/

/-- Python `s.startswith(pre)` over the underlying characters. -/
def isPrefixChars : List Char → List Char → Bool
  | [], _ => true
  | _ :: _, [] => false
  | p :: ps, c :: cs => p == c && isPrefixChars ps cs

def pyStartsWith (s pre : String) : Bool :=
  isPrefixChars pre.data s.data

/-- `if not token or not token.startswith("hf_")` (line 248): the bearer
credential is absent, empty, or fails the format check. -/
def tokenInvalid : Option String → Bool
  | none => true
  | some t => t == "" || !(pyStartsWith t "hf_")

/-- An HTTP response as the code observes it: status, content type, body
text (for error messages), and an opaque identifier standing for the raw
payload bytes. -/
structure HttpResp where
  status : ℕ
  contentType : String
  bodyText : String
  payload : ℕ
  deriving Repr, DecidableEq

/-- The two endpoints: the provider-routing root and the model-specific
path (lines 253–254). -/
inductive Endpoint where
  | root
  | models
  deriving Repr, DecidableEq

/-- Line 283: a successful video response. -/
def respIsVideo (r : HttpResp) : Bool :=
  r.status == 200 &&
    (pyStartsWith r.contentType "video" ||
      pyStartsWith r.contentType "application/octet-stream")

/-- `_attempt` (lines 275–293).  The JSON-error check of lines 285–290
raises inside the very `try` whose `except Exception: pass` swallows it, so
it cannot influence the outcome and is a no-op; a 404 yields `None`
(fall-through to the next endpoint), any other non-video response raises. -/
def attemptReq (r : HttpResp) : Except String (Option ℕ) :=
  if respIsVideo r then .ok (some r.payload)
  else if r.status == 404 then .ok none
  else .error ("HF API error: " ++ toString r.status ++ ": " ++ r.bodyText)

/-- `_generate_with_hf_api` (lines 235–301): validate the credential before
any network call, try the root endpoint, fall back to the model endpoint on
`None` (a 404), and fail hard when both return 404.  The second component
records the endpoints posted to, in order. -/
def generateWithHfApi (token : Option String) (respOf : Endpoint → HttpResp) :
    Except String ℕ × List Endpoint :=
  if tokenInvalid token then (.error "Invalid Hugging Face API token", [])
  else
    match attemptReq (respOf .root) with
    | .error e => (.error e, [.root])
    | .ok (some b) => (.ok b, [.root])
    | .ok none =>
      match attemptReq (respOf .models) with
      | .error e => (.error e, [.root, .models])
      | .ok (some b) => (.ok b, [.root, .models])
      | .ok none =>
        (.error "HF API error: 404: Not Found (both router root and model endpoints)",
          [.root, .models])

theorem attemptReq_of_404 {r : HttpResp} (h : r.status = 404) :
    attemptReq r = .ok none := by
  unfold attemptReq respIsVideo
  rw [h]
  simp

theorem attemptReq_none_iff_404 (r : HttpResp) :
    attemptReq r = .ok none ↔ r.status = 404 := by
  constructor
  · intro h
    unfold attemptReq at h
    split at h
    · exact absurd h (by simp)
    · split at h
      · rename_i h404
        simpa using h404
      · exact absurd h (by simp)
  · exact attemptReq_of_404

/-! ## Claim C8 -/

/-- **C8.** For every Cloud backend invocation: a missing or malformed
bearer credential fails the call before any network request (no endpoint is
contacted); otherwise the provider-routing endpoint is posted to first, the
model-specific endpoint is attempted if and only if the first attempt
returned a not-found (404) response, and when both attempts return 404 the
call fails with the hard both-endpoints error. -/
theorem hf_api_token_and_routing (token : Option String) (respOf : Endpoint → HttpResp) :
    (tokenInvalid token = true →
      generateWithHfApi token respOf = (.error "Invalid Hugging Face API token", [])) ∧
    (tokenInvalid token = false →
      (generateWithHfApi token respOf).2.head? = some .root ∧
      (Endpoint.models ∈ (generateWithHfApi token respOf).2 ↔ (respOf .root).status = 404)) ∧
    (tokenInvalid token = false → (respOf .root).status = 404 →
      (respOf .models).status = 404 →
      generateWithHfApi token respOf =
        (.error "HF API error: 404: Not Found (both router root and model endpoints)",
          [.root, .models])) := by
  refine ⟨?_, ?_, ?_⟩
  · intro h
    unfold generateWithHfApi
    rw [if_pos h]
  · intro h
    unfold generateWithHfApi
    rw [if_neg (by simp [h])]
    cases hr : attemptReq (respOf .root) with
    | error e =>
      refine ⟨rfl, ?_⟩
      simp only [List.mem_singleton]
      constructor
      · intro hmem; cases hmem
      · intro h404
        rw [attemptReq_of_404 h404] at hr
        cases hr
    | ok v =>
      cases v with
      | some b =>
        refine ⟨rfl, ?_⟩
        simp only [List.mem_singleton]
        constructor
        · intro hmem; cases hmem
        · intro h404
          rw [attemptReq_of_404 h404] at hr
          cases hr
      | none =>
        have h404 := (attemptReq_none_iff_404 (respOf .root)).mp hr
        cases attemptReq (respOf .models) with
        | error e => exact ⟨rfl, by simp [h404]⟩
        | ok v2 =>
          cases v2 with
          | some b => exact ⟨rfl, by simp [h404]⟩
          | none => exact ⟨rfl, by simp [h404]⟩
  · intro h h1 h2
    unfold generateWithHfApi
    rw [if_neg (by simp [h])]
    rw [attemptReq_of_404 h1, attemptReq_of_404 h2]

/-- Concrete instance of `hf_api_token_and_routing`: a well-formed token and
two 404 responses produce the hard both-endpoints failure after contacting
root first and then the model endpoint. -/
theorem hf_api_token_and_routing_witness :
    tokenInvalid (some "hf_demo") = false ∧
    (⟨404, "application/json", "Not Found", 0⟩ : HttpResp).status = 404 ∧
    generateWithHfApi (some "hf_demo")
        (fun _ => ⟨404, "application/json", "Not Found", 0⟩) =
      (.error "HF API error: 404: Not Found (both router root and model endpoints)",
        [.root, .models]) :=
  ⟨by decide, rfl,
    (hf_api_token_and_routing (some "hf_demo")
      (fun _ => ⟨404, "application/json", "Not Found", 0⟩)).2.2 (by decide) rfl rfl⟩

/-! ## VideoAssembler: `_create_video_file` and `extract_frames_from_video`
(storage.py lines 102–168 and 196–228)

A container file is modelled by the frame rate its metadata reports and the
decoded frame sequence in stream order.  The PIL-image branch of
`_create_video_file` is modelled: invalid (empty) arrays are skipped, the
first frame fixes the raster size, and every kept frame is written (resizing
changes pixels, not the count). -/

structure Container where
  fps : ℚ
  frames : List NDArr
  deriving Repr, DecidableEq

/-- `_create_video_file` on a list of decoded PIL frames (storage.py lines
108–139): fail on an empty list, skip frames whose array is empty, fail when
nothing remains or the first frame has a zero dimension, else write every
kept frame in order at the requested frame rate. -/
def createVideoFile (frames : List NDArr) (fps : ℚ) : Option Container :=
  if frames.isEmpty then none
  else
    let frameArrays := frames.filter (fun a => !a.data.isEmpty)
    if frameArrays.isEmpty then none
    else
      let h := (frameArrays.headD ⟨[], [], .u8⟩).shape.getD 0 0
      let w := (frameArrays.headD ⟨[], [], .u8⟩).shape.getD 1 0
      if h = 0 ∨ w = 0 then none
      else some ⟨fps, frameArrays⟩

/-- The sampling stride of `extract_frames_from_video` (storage.py lines
206–207): `fps_src = cap.get(cv2.CAP_PROP_FPS) or 8` and
`step = max(1, int(round(fps_src / (fps or fps_src))))`, with Python's
half-to-even `round`. -/
def extractStep (c : Container) (fps : Option ℕ) : ℕ :=
  let fpsSrc : ℚ := if c.fps = 0 then 8 else c.fps
  let target : ℚ := match fps with
    | none => fpsSrc
    | some f => if f = 0 then fpsSrc else (f : ℚ)
  max 1 (roundHalfEven (fpsSrc / target)).toNat

/-- The frame files written by `extract_frames_from_video` (lines 208–219):
every source frame whose index is a multiple of the stride, written under
the running extracted counter, in stream order. -/
def extractedFrameFiles (c : Container) (fps : Option ℕ) : List (ℕ × ℕ) :=
  (((List.range c.frames.length).filter (fun idx => idx % extractStep c fps == 0)).enum)

/-- The return value of `extract_frames_from_video`: the number of frames
extracted. -/
def extractFramesFromVideo (c : Container) (fps : Option ℕ) : ℕ :=
  (extractedFrameFiles c fps).length

theorem roundHalfEven_one : roundHalfEven 1 = 1 := by
  norm_num [roundHalfEven]

theorem roundHalfEven_two : roundHalfEven 2 = 2 := by
  norm_num [roundHalfEven]

theorem filter_mod_one_length (N : ℕ) :
    ((List.range N).filter (fun idx => idx % 1 == 0)).length = N := by
  rw [List.filter_eq_self.mpr]
  · exact List.length_range N
  · intro x _
    simpa using Nat.mod_one x

theorem filter_mod_two_length : ∀ N : ℕ,
    ((List.range N).filter (fun idx => idx % 2 == 0)).length = (N + 1) / 2 := by
  intro N
  induction N with
  | zero => rfl
  | succ n ih =>
    rw [List.range_succ, List.filter_append, List.length_append, ih]
    by_cases h : n % 2 = 0
    · have hb : (n % 2 == 0) = true := by simpa using h
      simp only [List.filter_cons, List.filter_nil, hb, if_true]
      simp only [List.length_cons, List.length_nil]
      omega
    · have hb : (n % 2 == 0) = false := by simpa using h
      simp only [List.filter_cons, List.filter_nil, hb]
      simp only [Bool.false_eq_true, if_false, List.length_nil]
      omega

/-! ## Claim C7 -/

/-- **C7.** For every container the sampling stride is
`max(1, round(source_fps / target_fps))`, and the extracted frames are
written under consecutive counters in increasing stream order.
Consequently, assembling `N` non-empty canonical frames at an integer rate
`F ≥ 1` and extracting at target rate `F` yields exactly `N` saved images
(stride 1), and extracting at `F / 2` (for even `F ≥ 2`) yields
`⌈N / 2⌉` images, i.e. approximately `N / 2`. -/
theorem assemble_extract_roundtrip (frames : List NDArr) (F : ℕ) (c : Container)
    (hne : frames ≠ [])
    (hvalid : ∀ a ∈ frames, a.data ≠ [])
    (hheight : (frames.headD ⟨[], [], .u8⟩).shape.getD 0 0 ≠ 0)
    (hwidth : (frames.headD ⟨[], [], .u8⟩).shape.getD 1 0 ≠ 0)
    (hF : 1 ≤ F)
    (hassemble : createVideoFile frames (F : ℚ) = some c) :
    (∀ t : ℕ, t ≠ 0 →
      extractStep c (some t) = max 1 (roundHalfEven ((F : ℚ) / t)).toNat) ∧
    (∀ t, (extractedFrameFiles c t).map Prod.fst =
        List.range (extractedFrameFiles c t).length ∧
      ((extractedFrameFiles c t).map Prod.snd).Pairwise (· < ·)) ∧
    extractFramesFromVideo c (some F) = frames.length ∧
    (2 ∣ F → extractFramesFromVideo c (some (F / 2)) = (frames.length + 1) / 2 ∧
      frames.length ≤ 2 * ((frames.length + 1) / 2) ∧
      2 * ((frames.length + 1) / 2) ≤ frames.length + 1) := by
  -- the container holds all N frames at rate F
  have hfilter : frames.filter (fun a => !a.data.isEmpty) = frames := by
    rw [List.filter_eq_self]
    intro a ha
    simpa using hvalid a ha
  have hc : c = ⟨(F : ℚ), frames⟩ := by
    unfold createVideoFile at hassemble
    rw [if_neg (by simpa using hne)] at hassemble
    simp only [hfilter] at hassemble
    rw [if_neg (by simpa using hne)] at hassemble
    rw [if_neg (by push_neg; exact ⟨hheight, hwidth⟩)] at hassemble
    injection hassemble with h
    exact h.symm
  subst hc
  have hFQ : ((F : ℚ)) ≠ 0 := Nat.cast_ne_zero.mpr (by omega)
  have hfps_src : (if ((F : ℚ)) = 0 then (8 : ℚ) else (F : ℚ)) = (F : ℚ) :=
    if_neg hFQ
  refine ⟨?_, ?_, ?_, ?_⟩
  · intro t ht
    unfold extractStep
    simp only [hfps_src]
    rw [if_neg ht]
  · intro t
    unfold extractedFrameFiles
    constructor
    · rw [List.enum_map_fst, List.enum_length]
    · rw [List.enum_map_snd]
      exact (List.pairwise_lt_range _).sublist (List.filter_sublist _)
  · unfold extractFramesFromVideo extractedFrameFiles extractStep
    simp only [hfps_src]
    rw [if_neg (by omega : ¬F = 0)]
    rw [div_self hFQ, roundHalfEven_one]
    simp only [Int.toNat_one, max_self, List.enum_length]
    exact filter_mod_one_length _
  · intro hdvd
    obtain ⟨m, hm⟩ := hdvd
    have hm1 : 1 ≤ m := by omega
    have hhalf : F / 2 = m := by omega
    have hdivq : ((F : ℚ)) / ((m : ℚ)) = 2 := by
      have hmQ : ((m : ℚ)) ≠ 0 := by exact_mod_cast (by omega : m ≠ 0)
      rw [hm]
      push_cast
      field_simp
    unfold extractFramesFromVideo extractedFrameFiles extractStep
    simp only [hfps_src, hhalf]
    rw [if_neg (by omega : ¬m = 0)]
    rw [hdivq, roundHalfEven_two]
    simp only [List.enum_length]
    rw [show (Int.toNat 2) = 2 from rfl]
    rw [show max 1 2 = 2 from rfl]
    refine ⟨filter_mod_two_length _, by omega, by omega⟩

/-- Concrete instance of `assemble_extract_roundtrip`: three 2×2 canonical
frames assembled at 8 fps extract back to 3 images at 8 fps and to 2 images
at 4 fps. -/
theorem assemble_extract_roundtrip_witness :
    (createVideoFile [⟨[2,2,3], List.replicate 12 (0:ℚ), .u8⟩,
        ⟨[2,2,3], List.replicate 12 (1:ℚ), .u8⟩,
        ⟨[2,2,3], List.replicate 12 (2:ℚ), .u8⟩] ((8 : ℕ) : ℚ) =
      some ⟨((8 : ℕ) : ℚ), [⟨[2,2,3], List.replicate 12 (0:ℚ), .u8⟩,
        ⟨[2,2,3], List.replicate 12 (1:ℚ), .u8⟩,
        ⟨[2,2,3], List.replicate 12 (2:ℚ), .u8⟩]⟩) ∧
    extractFramesFromVideo ⟨((8 : ℕ) : ℚ), [⟨[2,2,3], List.replicate 12 (0:ℚ), .u8⟩,
        ⟨[2,2,3], List.replicate 12 (1:ℚ), .u8⟩,
        ⟨[2,2,3], List.replicate 12 (2:ℚ), .u8⟩]⟩ (some 8) = 3 ∧
    extractFramesFromVideo ⟨((8 : ℕ) : ℚ), [⟨[2,2,3], List.replicate 12 (0:ℚ), .u8⟩,
        ⟨[2,2,3], List.replicate 12 (1:ℚ), .u8⟩,
        ⟨[2,2,3], List.replicate 12 (2:ℚ), .u8⟩]⟩ (some (8 / 2)) = 2 := by
  have hassemble : createVideoFile [⟨[2,2,3], List.replicate 12 (0:ℚ), .u8⟩,
      ⟨[2,2,3], List.replicate 12 (1:ℚ), .u8⟩,
      ⟨[2,2,3], List.replicate 12 (2:ℚ), .u8⟩] ((8 : ℕ) : ℚ) =
      some ⟨((8 : ℕ) : ℚ), [⟨[2,2,3], List.replicate 12 (0:ℚ), .u8⟩,
        ⟨[2,2,3], List.replicate 12 (1:ℚ), .u8⟩,
        ⟨[2,2,3], List.replicate 12 (2:ℚ), .u8⟩]⟩ := by
    unfold createVideoFile
    simp [List.filter, List.isEmpty, List.getD]
  have h := assemble_extract_roundtrip
    [⟨[2,2,3], List.replicate 12 (0:ℚ), .u8⟩,
     ⟨[2,2,3], List.replicate 12 (1:ℚ), .u8⟩,
     ⟨[2,2,3], List.replicate 12 (2:ℚ), .u8⟩] 8 _ (by simp) (by
      intro a ha
      simp only [List.mem_cons, List.not_mem_nil, or_false] at ha
      rcases ha with h | h | h <;> subst h <;> simp [List.replicate])
    (by simp [List.getD]) (by simp [List.getD]) (by omega) hassemble
  obtain ⟨-, -, h3, h4⟩ := h
  refine ⟨hassemble, by simpa using h3, ?_⟩
  have := h4 (by omega)
  simpa using this.1

/-! ## LocalModelRegistry.start_download: the download progress record
(models.py lines 62–248)

One download task's progress record is modelled as a state shared between
the download thread and its file-size sampler (`update_progress`).  The
download thread moves through program points in order: `p0` (record created
at progress 0), `p1` (progress set to 5, "Connecting", lines 102–106),
`p2` (sampler thread started, line 157), `p3` (progress set to 10,
lines 160–165), `p4` (inside `snapshot_download`), then either completion
(status `completed`, progress 100, lines 208–216) or — from any point, the
`except` handler — failure (status `failed`, progress 0, lines 235–243).
The sampler loop (lines 112–153) sleeps, increments `check_count`, breaks
when status is no longer `downloading`, and when the on-disk size grew
writes `min(95, 10 + check_count * 2)` under a membership-only check.
`pending` models a computed estimate not yet written; the size can only
grow while `snapshot_download` runs, so growth ticks require `p4`. -/

inductive DlStatus
  | downloading
  | completed
  | failed
  deriving Repr, DecidableEq

inductive DlPc
  | p0
  | p1
  | p2
  | p3
  | p4
  | done
  deriving Repr, DecidableEq

structure DlState where
  status : DlStatus
  progress : ℕ
  pc : DlPc
  cc : ℕ
  pending : Option ℕ
  deriving Repr, DecidableEq

/-- The record as `start_download` creates it (lines 74–82): status
`downloading`, progress 0, sampler not yet started. -/
def dlInit : DlState := ⟨.downloading, 0, .p0, 0, none⟩

/-- One scheduler step of the download thread or its sampler. -/
inductive DlStep : DlState → DlState → Prop
  | set5 (st : DlStatus) (pr cc : ℕ) (pd : Option ℕ) :
      DlStep ⟨st, pr, .p0, cc, pd⟩ ⟨st, 5, .p1, cc, pd⟩
  | startSampler (st : DlStatus) (pr cc : ℕ) (pd : Option ℕ) :
      DlStep ⟨st, pr, .p1, cc, pd⟩ ⟨st, pr, .p2, cc, pd⟩
  | set10 (st : DlStatus) (pr cc : ℕ) (pd : Option ℕ) :
      DlStep ⟨st, pr, .p2, cc, pd⟩ ⟨st, 10, .p3, cc, pd⟩
  | enterSnapshot (st : DlStatus) (pr cc : ℕ) (pd : Option ℕ) :
      DlStep ⟨st, pr, .p3, cc, pd⟩ ⟨st, pr, .p4, cc, pd⟩
  | complete (st : DlStatus) (pr cc : ℕ) (pd : Option ℕ) :
      DlStep ⟨st, pr, .p4, cc, pd⟩ ⟨.completed, 100, .done, cc, pd⟩
  | fail (st : DlStatus) (pr : ℕ) (pc : DlPc) (cc : ℕ) (pd : Option ℕ)
      (h : pc ≠ DlPc.done) :
      DlStep ⟨st, pr, pc, cc, pd⟩ ⟨.failed, 0, .done, cc, pd⟩
  | tickNoGrow (pr cc : ℕ) (pc : DlPc)
      (h : pc = DlPc.p2 ∨ pc = DlPc.p3 ∨ pc = DlPc.p4) :
      DlStep ⟨.downloading, pr, pc, cc, none⟩ ⟨.downloading, pr, pc, cc + 1, none⟩
  | tickGrow (pr cc : ℕ) :
      DlStep ⟨.downloading, pr, .p4, cc, none⟩
        ⟨.downloading, pr, .p4, cc + 1, some (min 95 (10 + (cc + 1) * 2))⟩
  | commit (st : DlStatus) (pr : ℕ) (pc : DlPc) (cc v : ℕ) :
      DlStep ⟨st, pr, pc, cc, some v⟩ ⟨st, v, pc, cc, none⟩

inductive DlReachable : DlState → Prop
  | init : DlReachable dlInit
  | step {s t : DlState} : DlReachable s → DlStep s t → DlReachable t

/-- Inductive invariant of the download record. -/
def DlInv (s : DlState) : Prop :=
  (s.status = DlStatus.downloading ↔ s.pc ≠ DlPc.done) ∧
  (s.pc = DlPc.p0 → s.progress = 0 ∧ s.pending = none) ∧
  (s.pc = DlPc.p1 → s.progress = 5 ∧ s.pending = none) ∧
  (s.pc = DlPc.p2 → s.progress = 5 ∧ s.pending = none) ∧
  (s.pc = DlPc.p3 → s.progress = 10 ∧ s.pending = none) ∧
  (s.pc = DlPc.p4 → 10 ≤ s.progress ∧ s.progress ≤ min 95 (10 + s.cc * 2) ∧
    ∀ v, s.pending = some v →
      s.progress ≤ v ∧ 10 ≤ v ∧ v ≤ min 95 (10 + s.cc * 2))

theorem dlInv_init : DlInv dlInit := by
  refine ⟨by simp [dlInit], ?_, ?_, ?_, ?_, ?_⟩ <;> simp [dlInit]

theorem dlInv_step {s t : DlState} (hs : DlInv s) (h : DlStep s t) : DlInv t := by
  obtain ⟨h1, h2, h3, h4, h5, h6⟩ := hs
  cases h with
  | set5 st pr cc pd =>
    refine ⟨⟨fun _ hq => (nomatch hq), fun _ => h1.mpr (fun hq => (nomatch hq))⟩,
      ?_, ?_, ?_, ?_, ?_⟩
    · intro hp; exact nomatch hp
    · intro _; exact ⟨rfl, (h2 rfl).2⟩
    · intro hp; exact nomatch hp
    · intro hp; exact nomatch hp
    · intro hp; exact nomatch hp
  | startSampler st pr cc pd =>
    obtain ⟨hp, hpd⟩ := h3 rfl
    refine ⟨⟨fun _ hq => (nomatch hq), fun _ => h1.mpr (fun hq => (nomatch hq))⟩,
      ?_, ?_, ?_, ?_, ?_⟩
    · intro hq; exact nomatch hq
    · intro hq; exact nomatch hq
    · intro _; exact ⟨hp, hpd⟩
    · intro hq; exact nomatch hq
    · intro hq; exact nomatch hq
  | set10 st pr cc pd =>
    refine ⟨⟨fun _ hq => (nomatch hq), fun _ => h1.mpr (fun hq => (nomatch hq))⟩,
      ?_, ?_, ?_, ?_, ?_⟩
    · intro hp; exact nomatch hp
    · intro hp; exact nomatch hp
    · intro hp; exact nomatch hp
    · intro _; exact ⟨rfl, (h4 rfl).2⟩
    · intro hp; exact nomatch hp
  | enterSnapshot st pr cc pd =>
    obtain ⟨hp, hpd⟩ := h5 rfl
    have hp' : pr = 10 := hp
    have hpd' : pd = none := hpd
    subst hp'
    subst hpd'
    refine ⟨⟨fun _ hq => (nomatch hq), fun _ => h1.mpr (fun hq => (nomatch hq))⟩,
      ?_, ?_, ?_, ?_, ?_⟩
    · intro hq; exact nomatch hq
    · intro hq; exact nomatch hq
    · intro hq; exact nomatch hq
    · intro hq; exact nomatch hq
    · intro _
      refine ⟨le_refl 10, ?_, ?_⟩
      · show (10 : ℕ) ≤ min 95 (10 + cc * 2)
        omega
      · intro v hv
        exact nomatch hv
  | complete st pr cc pd =>
    refine ⟨⟨fun hq => (nomatch hq), fun hq => absurd rfl hq⟩,
      ?_, ?_, ?_, ?_, ?_⟩ <;> intro hq <;> exact nomatch hq
  | fail st pr pc cc pd hpc =>
    refine ⟨⟨fun hq => (nomatch hq), fun hq => absurd rfl hq⟩,
      ?_, ?_, ?_, ?_, ?_⟩ <;> intro hq <;> exact nomatch hq
  | tickNoGrow pr cc pc hpc =>
    refine ⟨⟨fun _ => ?_, fun _ => rfl⟩, ?_, ?_, ?_, ?_, ?_⟩
    · show pc ≠ DlPc.done
      rcases hpc with hpc | hpc | hpc <;> rw [hpc] <;> exact fun hq => nomatch hq
    · intro hp; exact ⟨(h2 hp).1, rfl⟩
    · intro hp; exact ⟨(h3 hp).1, rfl⟩
    · intro hp; exact ⟨(h4 hp).1, rfl⟩
    · intro hp; exact ⟨(h5 hp).1, rfl⟩
    · intro hp
      obtain ⟨ha, hb, -⟩ := h6 hp
      have ha' : 10 ≤ pr := ha
      have hb' : pr ≤ min 95 (10 + cc * 2) := hb
      refine ⟨ha', ?_, ?_⟩
      · show pr ≤ min 95 (10 + (cc + 1) * 2)
        omega
      · intro v hv
        exact nomatch hv
  | tickGrow pr cc =>
    obtain ⟨ha, hb, -⟩ := h6 rfl
    have ha' : 10 ≤ pr := ha
    have hb' : pr ≤ min 95 (10 + cc * 2) := hb
    refine ⟨⟨fun _ hq => (nomatch hq), fun _ => rfl⟩, ?_, ?_, ?_, ?_, ?_⟩
    · intro hq; exact nomatch hq
    · intro hq; exact nomatch hq
    · intro hq; exact nomatch hq
    · intro hq; exact nomatch hq
    · intro _
      refine ⟨ha', ?_, ?_⟩
      · show pr ≤ min 95 (10 + (cc + 1) * 2)
        omega
      · intro v hv
        have hv' : min 95 (10 + (cc + 1) * 2) = v := by
          injection hv
        subst hv'
        refine ⟨?_, ?_, ?_⟩
        · show pr ≤ min 95 (10 + (cc + 1) * 2)
          omega
        · show (10 : ℕ) ≤ min 95 (10 + (cc + 1) * 2)
          omega
        · show min 95 (10 + (cc + 1) * 2) ≤ min 95 (10 + (cc + 1) * 2)
          omega
  | commit st pr pc cc v =>
    refine ⟨h1, ?_, ?_, ?_, ?_, ?_⟩
    · intro hp; exact nomatch (h2 hp).2
    · intro hp; exact nomatch (h3 hp).2
    · intro hp; exact nomatch (h4 hp).2
    · intro hp; exact nomatch (h5 hp).2
    · intro hp
      obtain ⟨-, -, hpend⟩ := h6 hp
      obtain ⟨-, hv10, hvle⟩ := hpend v rfl
      refine ⟨hv10, hvle, ?_⟩
      intro w hw
      exact nomatch hw

theorem dlReachable_inv {s : DlState} (h : DlReachable s) : DlInv s := by
  induction h with
  | init => exact dlInv_init
  | step _ hstep ih => exact dlInv_step ih hstep

theorem dlStep_status_back {s t : DlState} (h : DlStep s t)
    (ht : t.status = DlStatus.downloading) : s.status = DlStatus.downloading := by
  cases h <;> first | exact ht | rfl | (simp at ht)

/-! ## Claim C9 -/

/-- **C9.** In every reachable download record, progress starts at 0 and a
scheduler step never decreases the recorded progress as long as the status
stays `downloading`: the fixed pre-download updates (0 → 5 → 10) and the
sampler's capped tick-derived estimate `min(95, 10 + 2·check_count)` only
raise it.  Any step after which progress is lower leaves the status
non-`downloading` (the `failed` reset, or a late sampler write onto an
already-terminal record). -/
theorem download_progress_monotone (s t : DlState)
    (hr : DlReachable s) (hstep : DlStep s t) :
    dlInit.progress = 0 ∧
    (s.status = DlStatus.downloading → t.status = DlStatus.downloading →
      s.progress ≤ t.progress) ∧
    (t.progress < s.progress → t.status ≠ DlStatus.downloading) := by
  have hinv := dlReachable_inv hr
  obtain ⟨h1, h2, h3, h4, h5, h6⟩ := hinv
  have hmono : s.status = DlStatus.downloading → t.status = DlStatus.downloading →
      s.progress ≤ t.progress := by
    intro hsd htd
    cases hstep with
    | set5 st pr cc pd =>
      have h0 : pr = 0 := (h2 rfl).1
      show pr ≤ 5
      omega
    | startSampler st pr cc pd => exact le_refl _
    | set10 st pr cc pd =>
      have h5' : pr = 5 := (h4 rfl).1
      show pr ≤ 10
      omega
    | enterSnapshot st pr cc pd => exact le_refl _
    | complete st pr cc pd => simp at htd
    | fail st pr pc cc pd hpc => simp at htd
    | tickNoGrow pr cc pc hpc => exact le_refl _
    | tickGrow pr cc => exact le_refl _
    | commit st pr pc cc v =>
      simp only at *
      cases pc with
      | p0 => exact absurd (h2 rfl).2 (by simp)
      | p1 => exact absurd (h3 rfl).2 (by simp)
      | p2 => exact absurd (h4 rfl).2 (by simp)
      | p3 => exact absurd (h5 rfl).2 (by simp)
      | p4 => exact ((h6 rfl).2.2 v rfl).1
      | done => exact absurd rfl (h1.mp hsd)
  refine ⟨rfl, hmono, ?_⟩
  intro hlt htd
  exact absurd (hmono (dlStep_status_back hstep htd) htd) (by omega)

/-- Concrete instance of `download_progress_monotone`: the first update of a
fresh record (progress 0, status `downloading`) raises progress to 5 and
keeps the status `downloading`. -/
theorem download_progress_monotone_witness :
    dlInit.progress = 0 ∧
    ((dlInit.status = DlStatus.downloading →
      (⟨DlStatus.downloading, 5, DlPc.p1, 0, none⟩ : DlState).status =
        DlStatus.downloading →
      dlInit.progress ≤
        (⟨DlStatus.downloading, 5, DlPc.p1, 0, none⟩ : DlState).progress) ∧
    ((⟨DlStatus.downloading, 5, DlPc.p1, 0, none⟩ : DlState).progress <
        dlInit.progress →
      (⟨DlStatus.downloading, 5, DlPc.p1, 0, none⟩ : DlState).status ≠
        DlStatus.downloading)) := by
  have h := download_progress_monotone dlInit
    ⟨DlStatus.downloading, 5, DlPc.p1, 0, none⟩
    DlReachable.init (DlStep.set5 DlStatus.downloading 0 0 none)
  exact ⟨h.1, h.2.1, h.2.2⟩

end TextToVideo
